import Mathlib

namespace CodaMap

/-!
# Verification of the CodaToFramerAPI mapping core

Shallow embedding of `src/mapping.ts` (and the post-merge field filter of
`setCollectionFields` in `src/pack.ts`) of the CodaToFramerAPI repository,
together with proofs about the embedded definitions.

Conventions of the embedding:
* JS runtime values flowing through the mapper (the `unknown` cell values)
  are modelled by the inductive `JsonValue`; `undef` models `undefined`.
* JS numbers are modelled by `ℚ`; the decimal fragment of the JS `Number`
  string conversion is modelled exactly (`jsNumber`), other numeric string
  forms (hex, `Infinity`, ...) are treated as unparsable.
* JS library calls with no local source (`marked`/`sanitize-html`,
  `new Date` parsing, `JSON.stringify`, number rendering) are supplied
  through a `JsExternal` record of function parameters; theorems quantify
  over it, so nothing proved depends on a particular choice.
* JS `Map`s built from entry lists are modelled as association lists with a
  last-write-wins lookup, matching `new Map(entries)` semantics.
-/

/-- Model of a JSON-decoded JS runtime value (the mapper's `unknown` cells).
`undef` stands for `undefined`. -/
inductive JsonValue where
  | null : JsonValue
  | undef : JsonValue
  | str : String → JsonValue
  | num : ℚ → JsonValue
  | bool : Bool → JsonValue
  | arr : List JsonValue → JsonValue
  | obj : List (String × JsonValue) → JsonValue

/-- JS property read `o[k]` on an object modelled as an association list. -/
def objGet (fs : List (String × JsonValue)) (k : String) : Option JsonValue :=
  List.lookup k fs

/-- JS `"k" in o` test. -/
def objHasKey (fs : List (String × JsonValue)) (k : String) : Bool :=
  (List.lookup k fs).isSome

/-- JS truthiness: `!v` is true exactly on these values (`NaN` cannot occur
in JSON-decoded data, so it is not modelled). -/
def jsFalsy : JsonValue → Bool
  | .null => true
  | .undef => true
  | .str s => s = ""
  | .num q => q = 0
  | .bool b => !b
  | .arr _ => false
  | .obj _ => false

/-- Model of a JS `Date` object as far as the mapper reads it. -/
structure JsDate where
  utcYear : Int
  utcMonth : Nat
  utcDay : Nat
  year : Int
  month : Nat
  day : Nat
  hours : Nat
  minutes : Nat
  seconds : Nat
  ms : Nat
  isoString : String

/-- The JS runtime facilities the mapper calls but whose source is outside
this repository: `new Date(...)` string parsing (`none` models an invalid
date), the `marked` + `sanitize-html` pipeline of `markdownToSanitizedHtml`,
`JSON.stringify`, and number-to-string rendering. Theorems quantify over
this record. -/
structure JsExternal where
  parseDate : String → Option JsDate
  markdownToHtml : String → String
  jsonStringify : JsonValue → String
  numToStr : ℚ → String

/-- JS-style whitespace trim on a character list. -/
def trimList (l : List Char) : List Char :=
  ((l.dropWhile Char.isWhitespace).reverse.dropWhile Char.isWhitespace).reverse

/-- `String.trim`, computed on the character list (kernel-reducible). -/
def jsTrim (s : String) : String :=
  String.mk (trimList s.data)

/-- `String.startsWith`, computed on the character list. -/
def strStartsWith (s pre : String) : Bool :=
  pre.data.isPrefixOf s.data

/-- `String.endsWith`, computed on the character list. -/
def strEndsWith (s suf : String) : Bool :=
  suf.data.isSuffixOf s.data

/-- `String.drop`, computed on the character list. -/
def strDrop (s : String) (n : Nat) : String :=
  String.mk (s.data.drop n)

/-- `String.dropRight`, computed on the character list. -/
def strDropRight (s : String) (n : Nat) : String :=
  String.mk (s.data.take (s.data.length - n))

/-- `String.length`, computed on the character list. -/
def strLen (s : String) : Nat :=
  s.data.length

/-- `Array.prototype.join` / `String.intercalate`, fold-based. -/
def strIntercalate (sep : String) : List String → String
  | [] => ""
  | x :: rest => rest.foldl (fun a b => a ++ sep ++ b) x


mutual
/-- JS `String(v)` on JSON-decoded values. -/
def jsToString (ext : JsExternal) : JsonValue → String
  | .null => "null"
  | .undef => "undefined"
  | .str s => s
  | .num q => ext.numToStr q
  | .bool b => if b then "true" else "false"
  | .obj _ => "[object Object]"
  | .arr xs => strIntercalate "," (jsToStringList ext xs)

/-- Elements of `Array.prototype.toString`: `null`/`undefined` render empty. -/
def jsToStringList (ext : JsExternal) : List JsonValue → List String
  | [] => []
  | x :: xs =>
    (match x with
      | .null => ""
      | .undef => ""
      | v => jsToString ext v) :: jsToStringList ext xs
end

/-! ## Generic string machinery -/

/-- Substring containment test (JS `String.prototype.includes`). -/
def listContainsSub (pat : List Char) : List Char → Bool
  | [] => pat.isPrefixOf ([] : List Char)
  | c :: rest => pat.isPrefixOf (c :: rest) || listContainsSub pat rest

/-- JS `s.includes(pat)`. -/
def strContains (s pat : String) : Bool :=
  listContainsSub pat.data s.data

/-- JS `s.padStart(k, "0")`. -/
def padL (k : Nat) (s : String) : String :=
  if strLen s < k then String.mk (List.replicate (k - strLen s) '0') ++ s else s

/-- Split a character list at the first occurrence of `c`; the pieces exclude
the separator. `none` when `c` does not occur. -/
def splitAtChar (c : Char) : List Char → Option (List Char × List Char)
  | [] => none
  | x :: xs =>
    if x = c then some ([], xs)
    else
      match splitAtChar c xs with
      | none => none
      | some (a, b) => some (x :: a, b)

theorem splitAtChar_len {c : Char} :
    ∀ {l a b : List Char}, splitAtChar c l = some (a, b) → b.length < l.length := by
  intro l
  induction l with
  | nil => intro a b h; simp [splitAtChar] at h
  | cons x xs ih =>
    intro a b h
    simp only [splitAtChar] at h
    split at h
    · cases h; simp
    · cases hs : splitAtChar c xs with
      | none => rw [hs] at h; cases h
      | some p =>
        rw [hs] at h
        cases p with
        | mk a' b' =>
          have hb : b' = b := congrArg Prod.snd (Option.some.inj h)
          have := ih hs
          subst hb
          simp only [List.length_cons]
          omega

/-- Fuel-driven worker for `splitChar`; the fuel only bounds the recursion
depth (each step strictly shortens the list, so `l.length` fuel is enough)
and is structurally consumed so that the kernel can evaluate it. -/
def splitCharF (c : Char) : Nat → List Char → List (List Char)
  | 0, l => [l]
  | fuel + 1, l =>
    match splitAtChar c l with
    | none => [l]
    | some (a, b) => a :: splitCharF c fuel b

/-- JS `s.split(c)` for a single-character separator. -/
def splitChar (c : Char) (l : List Char) : List (List Char) :=
  splitCharF c l.length l

/-! ## `stripMarkdown` (mapping.ts lines 150-168), character-level

The three global regex replaces are modelled by three scanners over the
character list, each reproducing the leftmost-match / continue-after-match
behaviour of `String.prototype.replace` with a global regex. -/

/-- Replacement function of the markdown-link replace: the source returns the
link text, except a `mailto:` link whose text case-insensitively equals the
address, which collapses to the address. (The source's final
`linkText === linkUrl` comparison returns `linkText` on both branches.) -/
def linkReplaceStr (txt url : List Char) : List Char :=
  if "mailto:".data.isPrefixOf url then
    let email := url.drop 7
    if txt.map Char.toLower = email.map Char.toLower then email else txt
  else txt

/-- Fuel-driven worker for `linkGo` (fuel bounds the recursion depth; every
recursive call strictly shortens the list, so `l.length` fuel is enough). -/
def linkGoF : Nat → List Char → List Char
  | 0, l => l
  | _ + 1, [] => []
  | fuel + 1, c :: rest =>
    if c = '[' then
      match splitAtChar ']' rest with
      | some (txt, after1) =>
        if txt ≠ [] then
          match after1 with
          | '(' :: rest2 =>
            match splitAtChar ')' rest2 with
            | some (url, after2) =>
              if url ≠ [] then linkReplaceStr txt url ++ linkGoF fuel after2
              else c :: linkGoF fuel rest
            | none => c :: linkGoF fuel rest
          | _ => c :: linkGoF fuel rest
        else c :: linkGoF fuel rest
      | none => c :: linkGoF fuel rest
    else c :: linkGoF fuel rest

/-- Global replace of `\[([^\]]+)]\(([^)]+)\)` by `linkReplaceStr`. -/
def linkGo (l : List Char) : List Char :=
  linkGoF l.length l

/-- Find the first `` ``` `` in the list; returns the characters before it and
after it. -/
def findFence : List Char → Option (List Char × List Char)
  | [] => none
  | c :: rest =>
    if c = '`' ∧ rest.take 2 = ['`', '`'] then some ([], rest.drop 2)
    else
      match findFence rest with
      | none => none
      | some (a, b) => some (c :: a, b)

theorem findFence_len :
    ∀ {l a b : List Char}, findFence l = some (a, b) → b.length < l.length := by
  intro l
  induction l with
  | nil => intro a b h; simp [findFence] at h
  | cons c rest ih =>
    intro a b h
    simp only [findFence] at h
    split at h
    · have hb : rest.drop 2 = b := congrArg Prod.snd (Option.some.inj h)
      have : (rest.drop 2).length ≤ rest.length := by
        simp only [List.length_drop]
        omega
      subst hb
      simp only [List.length_cons]
      omega
    · cases hs : findFence rest with
      | none => rw [hs] at h; cases h
      | some p =>
        rw [hs] at h
        cases p with
        | mk a' b' =>
          have hb : b' = b := congrArg Prod.snd (Option.some.inj h)
          have := ih hs
          subst hb
          simp only [List.length_cons]
          omega

/-- Fuel-driven worker for `fenceGo` (fuel bounds the recursion depth; every
recursive call strictly shortens the list, so `l.length` fuel is enough). -/
def fenceGoF : Nat → List Char → List Char
  | 0, l => l
  | _ + 1, [] => []
  | fuel + 1, c :: rest =>
    if c = '`' ∧ rest.take 2 = ['`', '`'] then
      match findFence (rest.drop 2) with
      | some (inner, after) => trimList inner ++ fenceGoF fuel after
      | none => c :: rest
    else c :: fenceGoF fuel rest

/-- Global replace of ``/```([\s\S]*?)```/`` by the trimmed inner text. -/
def fenceGo (l : List Char) : List Char :=
  fenceGoF l.length l

/-- Fuel-driven worker for `btGo` (fuel bounds the recursion depth; every
recursive call strictly shortens the list, so `l.length` fuel is enough). -/
def btGoF : Nat → List Char → List Char
  | 0, l => l
  | _ + 1, [] => []
  | fuel + 1, c :: rest =>
    if c = '`' then
      match splitAtChar '`' rest with
      | some (inner, after) => trimList inner ++ btGoF fuel after
      | none => c :: btGoF fuel rest
    else c :: btGoF fuel rest

/-- Global replace of ``/`([^`]*)`/`` by the trimmed inner text. -/
def btGo (l : List Char) : List Char :=
  btGoF l.length l

/-- `stripMarkdown` (mapping.ts 150): link replace, then triple-fence replace,
then single-backtick replace, then trim. -/
def stripMarkdown (s : String) : String :=
  String.mk (trimList (btGo (fenceGo (linkGo s.data))))

/-! ## JS `Number(...)` on decimal strings, and URL helpers -/

/-- Value of a digit run as a natural number. -/
def digitsVal (l : List Char) : Nat :=
  l.foldl (fun a c => a * 10 + (c.toNat - 48)) 0

/-- Decimal body of a JS numeric literal: `digits [. digits] [e sign digits]`,
with at least one digit in the integer or fractional part. -/
def parseDecBody (l : List Char) : Option ℚ :=
  let intP := l.takeWhile Char.isDigit
  let r1 := l.dropWhile Char.isDigit
  let core : Option (ℚ × List Char) :=
    match r1 with
    | '.' :: r2 =>
      let fracP := r2.takeWhile Char.isDigit
      let r3 := r2.dropWhile Char.isDigit
      if intP = [] ∧ fracP = [] then none
      else some ((digitsVal intP : ℚ) + (digitsVal fracP : ℚ) / ((10 : ℚ) ^ fracP.length), r3)
    | _ => if intP = [] then none else some ((digitsVal intP : ℚ), r1)
  match core with
  | none => none
  | some (q, rest) =>
    match rest with
    | [] => some q
    | 'e' :: re => parseDecExp q re
    | 'E' :: re => parseDecExp q re
    | _ => none
where
  parseDecExp (q : ℚ) (re : List Char) : Option ℚ :=
    let (sgn, rd) : Int × List Char :=
      match re with
      | '+' :: rd => (1, rd)
      | '-' :: rd => (-1, rd)
      | _ => (1, re)
    if rd ≠ [] ∧ rd.all Char.isDigit then some (q * (10 : ℚ) ^ (sgn * digitsVal rd)) else none

/-- JS `Number(s)` restricted to decimal literals: whitespace is trimmed, the
empty string is `0`, an optional sign precedes the decimal body; `none`
models `NaN`. Hex/octal/binary literals and `Infinity` are not modelled (they
are treated as `NaN`); no theorem below evaluates them. -/
def jsNumber (s : String) : Option ℚ :=
  let l := trimList s.data
  match l with
  | [] => some 0
  | '+' :: r => parseDecBody r
  | '-' :: r => (parseDecBody r).map Neg.neg
  | _ => parseDecBody l

/-- `isValidAssetUrl` (mapping.ts 180). -/
def isValidAssetUrl (url : String) : Bool :=
  let t := jsTrim url
  strStartsWith t "http://" || strStartsWith t "https://" || strContains t "codahosted.io/"

/-- Image-file extensions accepted by `isLikelyImageUrl`'s regex, with the
`?`-quantified variants spelled out. -/
def imageExts : List String :=
  ["jpeg", "jpg", "png", "gif", "webp", "svg", "bmp", "tiff", "tif", "ico", "apng", "avif"]

/-- After a candidate `.`: some extension followed by end-of-string or a
`?`-query free of line terminators (JS `.` does not match `\n`/`\r`). -/
def extAndRestOk (l : List Char) : Bool :=
  imageExts.any fun e =>
    e.data.isPrefixOf l &&
      (let r := l.drop e.data.length
       r = [] || (r.headI = '?' && r.tail.all fun c => c ≠ '\n' && c ≠ '\r'))

/-- Scan the part after the scheme for `[\S]+ . ext (\?.*)? $`; `seen` records
whether at least one non-whitespace character preceded the current position. -/
def imageExtScanBody : List Char → Bool → Bool
  | [], _ => false
  | c :: rest, seen =>
    if c.isWhitespace then false
    else if c = '.' ∧ seen ∧ extAndRestOk rest then true
    else imageExtScanBody rest true

/-- `isLikelyImageUrl` (mapping.ts 189): a case-insensitive
`http(s)://<no-whitespace>.<image extension>[?query]` test, or a
`http(s)://codahosted.io/` prefix. -/
def isLikelyImageUrl (url : String) : Bool :=
  let t := jsTrim url
  let lower := String.mk (t.data.map Char.toLower)
  (if strStartsWith lower "https://" then imageExtScanBody (lower.data.drop 8) false
   else if strStartsWith lower "http://" then imageExtScanBody (lower.data.drop 7) false
   else false)
  || strStartsWith t "http://codahosted.io/" || strStartsWith t "https://codahosted.io/"

/-- First match of the markdown-image pattern `!\[[^\]]*\]\(([^)]+)\)`,
returning the URL group. -/
def findMdImg : List Char → Option (List Char)
  | [] => none
  | c :: rest =>
    if c = '!' then
      match rest with
      | '[' :: rest1 =>
        match splitAtChar ']' rest1 with
        | some (_, after1) =>
          (match after1 with
          | '(' :: rest2 =>
            match splitAtChar ')' rest2 with
            | some (url, _) => if url ≠ [] then some url else findMdImg rest
            | none => findMdImg rest
          | _ => findMdImg rest)
        | none => findMdImg rest
      | _ => findMdImg rest
    else findMdImg rest

/-- `extractUrlFromMarkdown` (mapping.ts 170): markdown image syntax, then a
fully code-fenced string, then a fully backtick-quoted string, then the
trimmed input. -/
def extractUrlFromMarkdown (s : String) : String :=
  match findMdImg s.data with
  | some url => jsTrim (String.mk url)
  | none =>
    if strStartsWith s "```" ∧ strEndsWith s "```" ∧ 6 ≤ strLen s then
      jsTrim (strDropRight (strDrop s 3) 3)
    else if strStartsWith s "`" ∧ strEndsWith s "`" ∧ 2 ≤ strLen s ∧
        (strDropRight (strDrop s 1) 1).data.all (fun c => c ≠ '`') then
      jsTrim (strDropRight (strDrop s 1) 1)
    else jsTrim s

/-- The per-label cleanup of the enum/lookup paths: the global replace of
`/^```|```$/` (drop a leading fence, then a trailing fence from what
remains) followed by `.trim()`. -/
def stripFenceTrim (s : String) : String :=
  let a := if strStartsWith s "```" then strDrop s 3 else s
  let b := if strEndsWith a "```" then strDropRight a 3 else a
  jsTrim b

/-! ## Data model (mapping.ts types) -/

/-- Destination field types of the Framer schema. -/
inductive FieldType where
  | string | number | boolean | date | image | file
  | formattedText | link | enum | collectionReference | multiCollectionReference
deriving DecidableEq, Repr

/-- A declared enumerated option on a source column (`Choice`). -/
structure Choice where
  name : String
  id : Option String
deriving DecidableEq, Repr

/-- One case of an `enum` field. -/
structure EnumCase where
  id : String
  name : String
deriving DecidableEq, Repr

/-- `ManagedCollectionFieldInput`: a destination field definition. Optional
properties of the TS union are modelled as always-present with defaults. -/
structure Field where
  id : String
  name : String
  type : FieldType
  cases : List EnumCase := []
  collectionId : Option String := none
  allowedFileTypes : List String := []
deriving DecidableEq, Repr

/-- `format.table` of a Coda column (only `id` is read by the mapper). -/
structure TableRef where
  id : Option String
deriving DecidableEq, Repr

/-- The two wire shapes of `format.options`: a bare choice array or a
`{choices: ...}` wrapper. -/
inductive OptionsShape where
  | bare (cs : List Choice)
  | wrapped (choices : Option (List Choice))
deriving DecidableEq, Repr

/-- `CodaColumnFormat`. -/
structure CodaColumnFormat where
  type : String
  isArray : Option Bool := none
  table : Option TableRef := none
  options : Option OptionsShape := none
deriving DecidableEq, Repr

/-- `CodaColumnInput` (the `display` flag is never read by the mapper). -/
structure CodaColumn where
  id : String
  name : String
  format : CodaColumnFormat
deriving DecidableEq, Repr

/-- `NormalizedRow`. Row values are an association list (JS object with
unique keys). -/
structure NormalizedRow where
  id : Option String
  values : List (String × JsonValue)

/-- `ReferenceMapEntry`. -/
structure ReferenceMapEntry where
  codaTableId : String
  framerCollectionId : String
deriving DecidableEq, Repr

/-- The value carried by a `FieldDataEntryInput`. -/
inductive EntryValue where
  | strV (s : String)
  | numV (q : ℚ)
  | boolV (b : Bool)
  | listV (ids : List String)
deriving DecidableEq, Repr

/-- `FieldDataEntryInput`: a tagged value. -/
structure FieldDataEntry where
  type : FieldType
  value : EntryValue
deriving DecidableEq, Repr

/-- `ManagedCollectionItemInput`. -/
structure Item where
  id : String
  slug : String
  draft : Bool
  fieldData : List (String × FieldDataEntry)
deriving DecidableEq, Repr

/-- `MappingResult`. -/
structure MappingResult where
  fields : List Field
  items : List Item
  warnings : List String
  skippedCount : Nat
deriving DecidableEq, Repr

/-! ## Map models -/

/-- `Map.set`-style update on an association list: overwrite in place or
append, so the key set keeps `Map` insertion order. -/
def mapSet (m : List (String × String)) (k v : String) : List (String × String) :=
  if m.any (fun p => p.1 = k) then
    m.map (fun p => if p.1 = k then (k, v) else p)
  else m ++ [(k, v)]

/-- `buildReferenceMap` (mapping.ts 223): entries with a falsy side are
skipped, the rest go into the map (string ids are already strings). -/
def buildReferenceMap (entries : Option (List ReferenceMapEntry)) : List (String × String) :=
  match entries with
  | none => []
  | some es =>
    es.foldl
      (fun m e =>
        if e.codaTableId = "" ∨ e.framerCollectionId = "" then m
        else mapSet m e.codaTableId e.framerCollectionId)
      []

/-- `new Map(list.map(x => [key x, x])).get k`: last-write-wins lookup. -/
def lastLookup {α : Type} (key : α → String) (l : List α) (k : String) : Option α :=
  l.foldl (fun acc x => if key x = k then some x else acc) none

/-! ## `mapCodaTypeToFramerType` (mapping.ts 233) -/

/-- JS `s.toLowerCase()`. -/
def jsLower (s : String) : String :=
  String.mk (s.data.map Char.toLower)

/-- The declared choice list: a bare array passes through, a wrapper
contributes its `choices`; the result is "truthy" when present (an empty
array is truthy in JS). -/
def enumChoicesOf (fmt : CodaColumnFormat) : Option (List Choice) :=
  match fmt.options with
  | some (.bare cs) => some cs
  | some (.wrapped cs) => cs
  | none => none

/-- Case id for a declared choice: `choice.id || choice.name || "choice-i"`
(JS `||`, so empty strings fall through). -/
def choiceCaseId (c : Choice) (i : Nat) : String :=
  match c.id with
  | some s => if s ≠ "" then s else (if c.name ≠ "" then c.name else "choice-" ++ toString i)
  | none => if c.name ≠ "" then c.name else "choice-" ++ toString i

/-- `mapCodaTypeToFramerType` (mapping.ts 233): `button` drops the column;
an `image`/`graphic` name or id forces an image field; declared choices on
`select`/`scale` give an enum; otherwise a fixed table on the declared type,
defaulting to `string`. -/
def mapCodaTypeToFramerType (column : CodaColumn) : Option Field :=
  let baseType := jsLower column.format.type
  let nameL := jsLower column.name
  let idL := jsLower column.id
  if baseType = "button" then none
  else if baseType = "image" || strContains nameL "image" || strContains nameL "graphic" ||
      strContains idL "image" || strContains idL "graphic" then
    some { id := column.id, name := column.name, type := .image }
  else
    match enumChoicesOf column.format with
    | some cs =>
      if baseType = "select" ∨ baseType = "scale" then
        some { id := column.id, name := column.name, type := .enum,
               cases := (cs.enum.map fun ci =>
                 { id := choiceCaseId ci.2 ci.1, name := ci.2.name }) }
      else mapBaseType column baseType
    | none => mapBaseType column baseType
where
  mapBaseType (column : CodaColumn) (baseType : String) : Option Field :=
    if baseType = "text" ∨ baseType = "email" ∨ baseType = "phone" then
      some { id := column.id, name := column.name, type := .string }
    else if baseType = "number" ∨ baseType = "currency" ∨ baseType = "percent" ∨
        baseType = "duration" then
      some { id := column.id, name := column.name, type := .number }
    else if baseType = "checkbox" then
      some { id := column.id, name := column.name, type := .boolean }
    else if baseType = "date" ∨ baseType = "datetime" then
      some { id := column.id, name := column.name, type := .date }
    else if baseType = "time" then
      some { id := column.id, name := column.name, type := .string }
    else if baseType = "image" then
      some { id := column.id, name := column.name, type := .image }
    else if baseType = "file" then
      some { id := column.id, name := column.name, type := .file,
             allowedFileTypes := ["*"] }
    else if baseType = "canvas" ∨ baseType = "richtext" then
      some { id := column.id, name := column.name, type := .formattedText }
    else if baseType = "person" ∨ baseType = "lookup" ∨ baseType = "reference" then
      if baseType = "lookup" ∧ column.format.isArray ≠ some true then
        some { id := column.id, name := column.name, type := .enum, cases := [] }
      else
        some { id := column.id, name := column.name, type := .string }
    else if baseType = "url" ∨ baseType = "link" then
      some { id := column.id, name := column.name, type := .link }
    else
      some { id := column.id, name := column.name, type := .string }

/-! ## Field merge (mapping.ts 484) and the post-merge filter (pack.ts) -/

/-- `mergeFieldsWithExistingFields` (mapping.ts 484): per source field, an
existing field with the same id only contributes its `name`; the lookup map
is `new Map(existingFields.map(f => [f.id, f]))`, so duplicate existing ids
resolve to the last one. -/
def mergeFieldsWithExistingFields (sourceFields existingFields : List Field) : List Field :=
  sourceFields.map fun sourceField =>
    match lastLookup Field.id existingFields sourceField.id with
    | some existingField => { sourceField with name := existingField.name }
    | none => sourceField

/-- The `compatibleFields` computation of `setCollectionFields` (pack.ts):
fields are written after dropping every `multiCollectionReference` field
whose `collectionId` is not a string. -/
def compatibleFields (fields : List Field) : List Field :=
  (fields.map fun field =>
    if field.type = .multiCollectionReference ∧ field.collectionId = none then
      none
    else some field).filterMap id

/-! ## Value-shape extraction helpers (mapping.ts 127, 502, 526, 857, 867) -/

/-- `extractMeaningfulText` (mapping.ts 127). The `{"@type":"WebPage"}` probe
returns `url`; otherwise the `rawValue`/`value`/`displayValue`/`name`/
`content` wrapper chain with JS `||` (empty strings fall through), ending at
`String(item)`. Arrays fail the non-array object test and stringify. -/
def extractMeaningfulText (ext : JsExternal) (item : JsonValue) : String :=
  match item with
  | .str s => s
  | .obj fs =>
    let isWebPage :=
      (match objGet fs "url" with
       | some (.str _) => true
       | _ => false) &&
      (match objGet fs "@type" with
       | some (.str t) => t = "WebPage"
       | _ => false)
    if isWebPage then
      match objGet fs "url" with
      | some (.str u) => u
      | _ => ""
    else
      let tryStr : Option JsonValue → Option String := fun v =>
        match v with
        | some (.str s) => if s ≠ "" then some s else none
        | _ => none
      match tryStr (objGet fs "rawValue") with
      | some s => s
      | none =>
        match tryStr (objGet fs "value") with
        | some s => s
        | none =>
          match tryStr (objGet fs "displayValue") with
          | some s => s
          | none =>
            match tryStr (objGet fs "name") with
            | some s => s
            | none =>
              match tryStr (objGet fs "content") with
              | some s => s
              | none => jsToString ext (.obj fs)
  | v => jsToString ext v

/-- `extractLookupValues` (mapping.ts 502): strings pass through; objects
contribute a string `name`, else a string `value`; arrays contribute
per-element. Other values (including nested arrays, whose `name`/`value`
properties are undefined) contribute nothing. -/
def extractLookupValues (value : JsonValue) : List String :=
  let ofObj : List (String × JsonValue) → List String := fun fs =>
    match objGet fs "name" with
    | some (.str n) => [n]
    | _ =>
      match objGet fs "value" with
      | some (.str v) => [v]
      | _ => []
  match value with
  | .arr items =>
    items.flatMap fun item =>
      match item with
      | .str s => [s]
      | .obj fs => ofObj fs
      | _ => []
  | .obj fs => ofObj fs
  | .str s => [s]
  | _ => []

/-- `extractSlugValue` (mapping.ts 526). `none` in the argument models an
absent (`undefined`) slug cell. Strings and string-valued `{value}` wrappers
are markdown-stripped and trimmed; other objects (arrays included, since JS
`typeof` calls them objects) go through `extractMeaningfulText`. -/
def extractSlugValue (ext : JsExternal) (value : Option JsonValue) : Option String :=
  match value with
  | some (.str s) => some (jsTrim (stripMarkdown s))
  | some (.obj fs) =>
    match objGet fs "value" with
    | some (.str w) => some (jsTrim (stripMarkdown w))
    | _ =>
      let extracted := extractMeaningfulText ext (.obj fs)
      if extracted ≠ "" then some (jsTrim (stripMarkdown extracted)) else none
  | some (.arr xs) =>
    let extracted := extractMeaningfulText ext (.arr xs)
    if extracted ≠ "" then some ((stripMarkdown extracted).trim) else none
  | _ => none

/-- `extractReferenceId` (mapping.ts 857). -/
def extractReferenceId (value : JsonValue) : Option String :=
  match value with
  | .str s => some s
  | .obj fs =>
    match objGet fs "id" with
    | some (.str s) => some s
    | _ =>
      match objGet fs "@id" with
      | some (.str s) => some s
      | _ => none
  | _ => none

/-- The `processItem` helper of `extractReferenceIds` (mapping.ts 869). -/
def processRefItem (item : JsonValue) : Option String :=
  match item with
  | .str s => some s
  | .obj fs =>
    match objGet fs "rowId" with
    | some (.str s) => some s
    | _ =>
      match objGet fs "id" with
      | some (.str s) => some s
      | _ =>
        match objGet fs "@id" with
        | some (.str s) => some s
        | _ => none
  | _ => none

/-- `extractReferenceIds` (mapping.ts 867): per element for arrays, a single
probe otherwise; falsy ids (`""`/`null`) are dropped. -/
def extractReferenceIds (value : JsonValue) : List String :=
  let keep : JsonValue → Option String := fun item =>
    match processRefItem item with
    | some s => if s ≠ "" then some s else none
    | none => none
  match value with
  | .arr items => items.filterMap keep
  | v => (keep v).toList

/-! ## `formatTimeValue` (mapping.ts 893) -/

/-- Parse the `^([0-1]?\d|2[0-3]):([0-5]\d)(:([0-5]\d))?$` time pattern. -/
def parseTimeOnly (s : String) : Option (Nat × Nat × Nat) :=
  let hourOk : List Char → Option Nat := fun l =>
    match l with
    | [c] => if c.isDigit then some (c.toNat - 48) else none
    | [c0, c1] =>
      if (c0 = '0' ∨ c0 = '1') ∧ c1.isDigit then
        some ((c0.toNat - 48) * 10 + (c1.toNat - 48))
      else if c0 = '2' ∧ ('0' ≤ c1 ∧ c1 ≤ '3') then
        some (20 + (c1.toNat - 48))
      else none
    | _ => none
  let minOk : List Char → Option Nat := fun l =>
    match l with
    | [c0, c1] =>
      if ('0' ≤ c0 ∧ c0 ≤ '5') ∧ c1.isDigit then
        some ((c0.toNat - 48) * 10 + (c1.toNat - 48))
      else none
    | _ => none
  match splitChar ':' s.data with
  | [hs, ms] =>
    match hourOk hs, minOk ms with
    | some h, some m => some (h, m, 0)
    | _, _ => none
  | [hs, ms, ss] =>
    match hourOk hs, minOk ms, minOk ss with
    | some h, some m, some sec => some (h, m, sec)
    | _, _, _ => none
  | _ => none

/-- Rendering half of `formatTimeValue`: 24-hour `HH:MM[:SS]`, or 12-hour
`h:MM[:SS] AM/PM` with hour 0 mapped to 12; seconds only when nonzero. -/
def renderTime (hours minutes seconds : Nat) (use12HourTime : Bool) : String :=
  if use12HourTime then
    let ampm := if 12 ≤ hours then "PM" else "AM"
    let fh := if hours % 12 = 0 then 12 else hours % 12
    let base := toString fh ++ ":" ++ padL 2 (toString minutes)
    let base2 := if 0 < seconds then base ++ ":" ++ padL 2 (toString seconds) else base
    base2 ++ " " ++ ampm
  else
    let base := padL 2 (toString hours) ++ ":" ++ padL 2 (toString minutes)
    if 0 < seconds then base ++ ":" ++ padL 2 (toString seconds) else base

/-- `formatTimeValue` (mapping.ts 893): a bare time string, else a parseable
datetime string; JSON-decoded cells are never `Date` instances, so only the
string branch can parse. -/
def formatTimeValue (ext : JsExternal) (value : JsonValue) (use12HourTime : Bool) :
    Option String :=
  match value with
  | .str s =>
    match parseTimeOnly s with
    | some hms => some (renderTime hms.1 hms.2.1 hms.2.2 use12HourTime)
    | none =>
      match ext.parseDate s with
      | some d => some (renderTime d.hours d.minutes d.seconds use12HourTime)
      | none => none
  | _ => none

/-! ## `transformCodaValue` (mapping.ts 547) -/

/-- The blank test of `transformCodaValue`:
`value === null || value === undefined || (typeof value === "string" && value.trim() === "")`. -/
def isBlankRaw : JsonValue → Bool
  | .null => true
  | .undef => true
  | .str s => jsTrim s = ""
  | _ => false

/-- The canonical-empty entry per destination type (mapping.ts 558-583);
`none` for `date`. The switch's `default` arm is unreachable for the closed
`FieldType` vocabulary. -/
def blankEntry : FieldType → Option FieldDataEntry
  | .string => some ⟨.string, .strV ""⟩
  | .number => some ⟨.number, .numV 0⟩
  | .boolean => some ⟨.boolean, .boolV false⟩
  | .date => none
  | .image => some ⟨.image, .strV ""⟩
  | .file => some ⟨.file, .strV ""⟩
  | .formattedText => some ⟨.formattedText, .strV ""⟩
  | .link => some ⟨.link, .strV ""⟩
  | .collectionReference => some ⟨.collectionReference, .strV ""⟩
  | .multiCollectionReference => some ⟨.multiCollectionReference, .listV []⟩
  | .enum => some ⟨.enum, .strV ""⟩

/-- The `number` coercion (mapping.ts 587-619): numbers pass through; strings
are stripped of `$£€¥` and `,`, trimmed, with a trailing `%` dividing the
parse by 100, `NaN` defaulting to 0; objects probe `MonetaryAmount.amount`,
then numeric `value`/`amount`; everything else is 0. (A `MonetaryAmount`
whose `amount` is not a number would surface a non-numeric JS value; that
dead corner is modelled as 0.) -/
def coerceNumber (value : JsonValue) : ℚ :=
  match value with
  | .num q => q
  | .str s =>
    let clean := (String.mk (trimList
      (s.data.filter fun c => ¬ (c = '$' ∨ c = '£' ∨ c = '€' ∨ c = '¥' ∨ c = ','))))
    if strEndsWith clean "%" then
      match jsNumber (strDropRight clean 1) with
      | some q => q / 100
      | none => 0
    else
      match jsNumber clean with
      | some q => q
      | none => 0
  | .obj fs =>
    let isMonetary : Bool :=
      match objGet fs "@type" with
      | some (.str t) => t = "MonetaryAmount"
      | _ => false
    if isMonetary then
      match objGet fs "amount" with
      | some (.num a) => a
      | _ => 0
    else
      match objGet fs "value" with
      | some (.num q) => q
      | _ =>
        match objGet fs "amount" with
        | some (.num a) => a
        | _ => 0
  | _ => 0

/-- The `date` coercion (mapping.ts 623-669): the raw value (or its string/
number `{value}` wrapper) is stringified and given to `new Date`; `NaN`
omits. The output shape depends on the source column type: `date` renders
the UTC calendar date, `time` re-anchors the ISO time part to 1970-01-01,
`datetime` re-stamps local wall-clock fields with a literal `Z`, anything
else is the ISO instant. -/
def coerceDate (ext : JsExternal) (value : JsonValue) (codaColumnType : String) :
    Option String :=
  let dvStr : String :=
    match value with
    | .str s => s
    | .num q => ext.numToStr q
    | .obj fs =>
      match objGet fs "value" with
      | some (.str s) => s
      | some (.num q) => ext.numToStr q
      | _ => ""
    | _ => ""
  match ext.parseDate dvStr with
  | none => none
  | some d =>
    if codaColumnType = "date" then
      some (toString d.utcYear ++ "-" ++ padL 2 (toString (d.utcMonth + 1)) ++ "-" ++
        padL 2 (toString d.utcDay))
    else if codaColumnType = "datetime" ∨ codaColumnType = "time" then
      if codaColumnType = "time" then
        some ("1970-01-01T" ++ (((splitChar 'T' d.isoString.data).map String.mk).getD 1 "undefined"))
      else
        some (toString d.year ++ "-" ++ padL 2 (toString (d.month + 1)) ++ "-" ++
          padL 2 (toString d.day) ++ "T" ++ padL 2 (toString d.hours) ++ ":" ++
          padL 2 (toString d.minutes) ++ ":" ++ padL 2 (toString d.seconds) ++ "." ++
          padL 3 (toString d.ms) ++ "Z")
    else some d.isoString

/-- The `formattedText` coercion (mapping.ts 670-689): only `canvas`/
`richtext` sources are treated as markdown (from `content`, else `value`,
else the JSON serialization unless it is `"{}"`) and sanitized; other
sources stringify as-is. -/
def coerceFormatted (ext : JsExternal) (value : JsonValue) (codaColumnType : String) :
    String :=
  if codaColumnType = "canvas" ∨ codaColumnType = "richtext" then
    let markdown : String :=
      match value with
      | .obj fs =>
        (match objGet fs "content" with
        | some (.str c) => c
        | _ =>
          match objGet fs "value" with
          | some (.str c) => c
          | _ =>
            let serialized := ext.jsonStringify (.obj fs)
            if serialized ≠ "{}" then serialized else "")
      | .arr xs =>
        let serialized := ext.jsonStringify (.arr xs)
        if serialized ≠ "{}" then serialized else ""
      | .str s => s
      | _ => ""
    ext.markdownToHtml markdown
  else jsToString ext value

/-- The `string` coercion (mapping.ts 690-707): `time` sources first try the
time formatter; arrays and `{rawValue: [...]}` wrappers join per-element
labels with `", "`; everything ends in `stripMarkdown`. -/
def coerceString (ext : JsExternal) (value : JsonValue) (codaColumnType : String)
    (use12HourTime : Bool) : String :=
  let base : String :=
    let joined : List JsonValue → String := fun xs =>
      strIntercalate ", " ((xs.map (extractMeaningfulText ext)).filter (· ≠ ""))
    match value with
    | .arr xs => joined xs
    | .obj fs =>
      if objHasKey fs "rawValue" then
        match objGet fs "rawValue" with
        | some (.arr xs) => joined xs
        | _ => joined []
      else extractMeaningfulText ext (.obj fs)
    | v => extractMeaningfulText ext v
  if codaColumnType = "time" then
    match formatTimeValue ext value use12HourTime with
    | some formatted => if formatted ≠ "" then formatted else stripMarkdown base
    | none => stripMarkdown base
  else stripMarkdown base

/-- First acceptable URL among an `ImageObject`'s `url`/`contentUrl`/
`thumbnailUrl` string properties (mapping.ts 717-728/735-745). -/
def pickImageObjUrl (fs : List (String × JsonValue)) : String :=
  let urls := ([objGet fs "url", objGet fs "contentUrl", objGet fs "thumbnailUrl"]).filterMap
    fun o =>
      match o with
      | some (.str s) => some s
      | _ => none
  match urls.find? (fun u => isValidAssetUrl u || isLikelyImageUrl u) with
  | some u => u
  | none => ""

/-- The array scan of the image coercion: the first element that is an
`ImageObject` with an acceptable URL wins. -/
def scanImageObjects : List JsonValue → String
  | [] => ""
  | item :: rest =>
    let u :=
      match item with
      | .obj fs =>
        (match objGet fs "@type" with
        | some (.str t) => if t = "ImageObject" then pickImageObjUrl fs else ""
        | _ => "")
      | _ => ""
    if u ≠ "" then u else scanImageObjects rest

/-- The `image` coercion (mapping.ts 708-781): a string unwraps markdown
image / code-fence syntax; object shapes go through three successive probe
blocks (ImageObject scan, then generic wrapper keys which overwrite, then
`linkedRow`), and the final candidate must pass the asset/image URL tests. -/
def coerceImage (value : JsonValue) : Option String :=
  let u1 : String :=
    match value with
    | .str s => extractUrlFromMarkdown s
    | .arr xs => scanImageObjects xs
    | .obj fs =>
      (match objGet fs "@type" with
      | some (.str t) => if t = "ImageObject" then pickImageObjUrl fs else ""
      | _ => "")
    | _ => ""
  let u2 : String :=
    match value with
    | .obj fs =>
      (match objGet fs "url" with
      | some (.str s) => s
      | _ =>
        match objGet fs "link" with
        | some (.str s) => s
        | _ =>
          match objGet fs "value" with
          | some (.str s) => extractUrlFromMarkdown s
          | _ =>
            match objGet fs "rawValue" with
            | some (.str s) => extractUrlFromMarkdown s
            | _ =>
              match objGet fs "imageUrl" with
              | some (.str s) => s
              | _ =>
                match objGet fs "thumbnailUrl" with
                | some (.str s) => s
                | _ => u1)
    | _ => u1
  let u3 : String :=
    match value with
    | .obj fs =>
      (match objGet fs "linkedRow" with
      | some (.obj lr) =>
        (match objGet lr "url" with
        | some (.str s) => s
        | _ =>
          match objGet lr "imageUrl" with
          | some (.str s) => s
          | _ => u2)
      | _ => u2)
    | _ => u2
  if u3 ≠ "" ∧ (isValidAssetUrl u3 ∨ isLikelyImageUrl u3) then some (jsTrim u3) else none

/-- The `file` coercion (mapping.ts 783-798). -/
def coerceFile (value : JsonValue) : Option String :=
  let fileUrl : String :=
    match value with
    | .str s => extractUrlFromMarkdown s
    | .obj fs =>
      (match objGet fs "url" with
      | some (.str s) => s
      | _ =>
        match objGet fs "link" with
        | some (.str s) => s
        | _ => "")
    | _ => ""
  if fileUrl ≠ "" ∧ isValidAssetUrl fileUrl then some (jsTrim fileUrl) else none

/-- The `link` coercion (mapping.ts 800-809): always produces a value. -/
def coerceLink (value : JsonValue) : String :=
  match value with
  | .obj fs =>
    (match objGet fs "url" with
    | some (.str s) => s
    | _ => "")
  | .str s => s
  | _ => ""

/-- Label extraction of the `enum` coercion (mapping.ts 819-837): a string,
an object's `name`/`id`, or a nonempty array's first element (whose `name`,
when the key exists, stringifies with `?? ""` for null); then code-fence
stripping when nonempty. -/
def enumLabelOf (ext : JsExternal) (value : JsonValue) : String :=
  let enumValue0 : String :=
    match value with
    | .obj fs =>
      (match objGet fs "name" with
      | some (.str n) => n
      | _ =>
        match objGet fs "id" with
        | some (.str i) => i
        | _ => "")
    | .str s => s
    | .arr (firstItem :: _) =>
      (match firstItem with
      | .obj fs =>
        if objHasKey fs "name" then
          match objGet fs "name" with
          | some .null => ""
          | some .undef => ""
          | some jv => jsToString ext jv
          | none => ""
        else ""
      | .str s => s
      | _ => "")
    | _ => ""
  if enumValue0 ≠ "" then stripFenceTrim enumValue0 else enumValue0

/-- Case resolution of the `enum` coercion (mapping.ts 839-850): id match
first, then name match, then the literal label; an empty label omits. -/
def resolveEnumCase (cases : List EnumCase) (enumValue : String) : Option String :=
  if enumValue ≠ "" then
    match cases.find? (fun c => c.id = enumValue) with
    | some matchingCase => some matchingCase.id
    | none =>
      match cases.find? (fun c => c.name = enumValue) with
      | some matchByName => some matchByName.id
      | none => some enumValue
  else none

/-- The `enum` coercion (mapping.ts 818-851). -/
def coerceEnum (ext : JsExternal) (cases : List EnumCase) (value : JsonValue) :
    Option FieldDataEntry :=
  (resolveEnumCase cases (enumLabelOf ext value)).map fun s => ⟨.enum, .strV s⟩

/-- `transformCodaValue` (mapping.ts 547): the blank path returns the
canonical empty entry (`none` for `date`); otherwise each destination type
has its own coercion. -/
def transformCodaValue (ext : JsExternal) (value : JsonValue) (field : Field)
    (codaColumnType : String) (use12HourTime : Bool) : Option FieldDataEntry :=
  if isBlankRaw value then blankEntry field.type
  else
    match field.type with
    | .number => some ⟨.number, .numV (coerceNumber value)⟩
    | .boolean => some ⟨.boolean, .boolV (!jsFalsy value)⟩
    | .date => (coerceDate ext value codaColumnType).map fun s => ⟨.date, .strV s⟩
    | .formattedText => some ⟨.formattedText, .strV (coerceFormatted ext value codaColumnType)⟩
    | .string => some ⟨.string, .strV (coerceString ext value codaColumnType use12HourTime)⟩
    | .image => (coerceImage value).map fun s => ⟨.image, .strV s⟩
    | .file => (coerceFile value).map fun s => ⟨.file, .strV s⟩
    | .link => some ⟨.link, .strV (coerceLink value)⟩
    | .collectionReference =>
      some ⟨.collectionReference, .strV ((extractReferenceId value).getD "")⟩
    | .multiCollectionReference =>
      some ⟨.multiCollectionReference, .listV (extractReferenceIds value)⟩
    | .enum => coerceEnum ext field.cases value

/-! ## `buildFieldsAndItems` (mapping.ts 363) -/

/-- The options record of `buildFieldsAndItems`. The reference map is the
association list built by `buildReferenceMap` (looked up by `List.lookup`,
whose keys that builder keeps unique). -/
structure BuildOptions where
  columns : List CodaColumn
  rows : List NormalizedRow
  slugFieldId : String
  referenceMap : List (String × String)
  use12HourTime : Bool

/-- Per-column step of the fields computation (mapping.ts 373-401): the type
mapper's output, post-processed by the lookup-array reference override,
together with the warning that step may record. A `""` table id is falsy in
JS and produces neither an override nor a warning. -/
def mapColumnWithRef (referenceMap : List (String × String)) (column : CodaColumn) :
    Option Field × Option String :=
  match mapCodaTypeToFramerType column with
  | none => (none, none)
  | some mappedField =>
    if mappedField.type = .string ∧ jsLower column.format.type = "lookup" ∧
        column.format.isArray = some true then
      match column.format.table with
      | some t =>
        (match t.id with
        | some refId =>
          if refId = "" then (some mappedField, none)
          else
            match List.lookup refId referenceMap with
            | some linkedCollectionId =>
              if linkedCollectionId ≠ "" then
                (some { id := column.id, name := column.name,
                        type := .multiCollectionReference,
                        collectionId := some linkedCollectionId }, none)
              else
                (some mappedField,
                 some ("No Framer collection mapping found for lookup field \"" ++
                   column.name ++ "\" (Coda table " ++ refId ++ ")."))
            | none =>
              (some mappedField,
               some ("No Framer collection mapping found for lookup field \"" ++
                 column.name ++ "\" (Coda table " ++ refId ++ ")."))
        | none => (some mappedField, none))
      | none => (some mappedField, none)
    else (some mappedField, none)

/-- The fields stage: columns mapped in order, dropped columns filtered out,
override warnings accumulated in column order. -/
def fieldsStage (referenceMap : List (String × String)) (columns : List CodaColumn) :
    List Field × List String :=
  columns.foldl
    (fun acc column =>
      let r := mapColumnWithRef referenceMap column
      (acc.1 ++ r.1.toList, acc.2 ++ r.2.toList))
    ([], [])

/-- Ordered-set insertion (JS `Set.add`): appends unless already present. -/
def addUnique (acc : List String) (v : String) : List String :=
  if v ∈ acc then acc else acc ++ [v]

/-- The per-field row scan of the enum domain synthesizer (mapping.ts
416-424): falsy cells are skipped, extracted labels are fence-stripped and
trimmed, and accumulate into an insertion-ordered set. -/
def collectLookupSet (rows : List NormalizedRow) (fieldId : String) : List String :=
  rows.foldl
    (fun acc row =>
      match List.lookup fieldId row.values with
      | none => acc
      | some v =>
        if jsFalsy v then acc
        else (extractLookupValues v).foldl (fun a s => addUnique a (stripFenceTrim s)) acc)
    []

/-- The synthesized case list (mapping.ts 426-436): nonempty collected
labels, each becoming a case whose id and name are the label. -/
def synthCases (rows : List NormalizedRow) (fieldId : String) : List EnumCase :=
  ((collectLookupSet rows fieldId).filter (· ≠ "")).map fun v => ⟨v, v⟩

/-- The `lookupFields` membership test (mapping.ts 403-410): an enum field
whose id belongs to a `lookup`-typed column. -/
def isLookupEnumField (columns : List CodaColumn) (field : Field) : Bool :=
  columns.any fun column =>
    column.id = field.id && jsLower column.format.type = "lookup" && field.type = .enum

/-- The enum-synthesis pass over the mapped fields (mapping.ts 412-437):
lookup-enum fields get their case list replaced by the synthesized domain. -/
def finalizeFields (columns : List CodaColumn) (rows : List NormalizedRow)
    (fields : List Field) : List Field :=
  fields.map fun field =>
    if isLookupEnumField columns field then
      { field with cases := synthCases rows field.id }
    else field

/-- `new Map(columns.map(c => [c.id, c.format.type.toLowerCase()])).get(k) || "text"`. -/
def columnTypeFor (columns : List CodaColumn) (k : String) : String :=
  match lastLookup CodaColumn.id columns k with
  | some column => if jsLower column.format.type ≠ "" then jsLower column.format.type else "text"
  | none => "text"

/-- Per-row field data (mapping.ts 462-471): entries of the row's values,
keyed through the field map, with `null` transforms omitted. -/
def rowFieldData (ext : JsExternal) (fields : List Field) (columns : List CodaColumn)
    (use12HourTime : Bool) (values : List (String × JsonValue)) :
    List (String × FieldDataEntry) :=
  values.filterMap fun kv =>
    match lastLookup Field.id fields kv.1 with
    | none => none
    | some field =>
      match transformCodaValue ext kv.2 field (columnTypeFor columns kv.1) use12HourTime with
      | some transformed => some (kv.1, transformed)
      | none => none

/-- The warning recorded for a row with a falsy id (mapping.ts 451). -/
def rowIdWarning (index : Nat) : String :=
  "Row at index " ++ toString index ++ " is missing a row id and was skipped."

/-- The warning recorded for a row with a falsy slug value (mapping.ts 458). -/
def slugWarning (rowId : String) : String :=
  "Row " ++ rowId ++ " is missing a slug value and was skipped."

/-- Accumulator of the row loop. -/
structure RowAcc where
  items : List Item
  warnings : List String
  skipped : Nat
deriving DecidableEq, Repr

/-- One iteration of the row loop (mapping.ts 447-479). -/
def stepRow (ext : JsExternal) (fields : List Field) (columns : List CodaColumn)
    (slugFieldId : String) (use12HourTime : Bool) (acc : RowAcc)
    (ir : Nat × NormalizedRow) : RowAcc :=
  let index := ir.1
  let row := ir.2
  match row.id with
  | none =>
    { acc with skipped := acc.skipped + 1,
               warnings := acc.warnings ++ [rowIdWarning index] }
  | some rowId =>
    if rowId = "" then
      { acc with skipped := acc.skipped + 1,
                 warnings := acc.warnings ++ [rowIdWarning index] }
    else
      match extractSlugValue ext (List.lookup slugFieldId row.values) with
      | none =>
        { acc with skipped := acc.skipped + 1,
                   warnings := acc.warnings ++ [slugWarning rowId] }
      | some slugValue =>
        if slugValue = "" then
          { acc with skipped := acc.skipped + 1,
                     warnings := acc.warnings ++ [slugWarning rowId] }
        else
          { acc with items := acc.items ++
              [{ id := rowId, slug := slugValue, draft := false,
                 fieldData := rowFieldData ext fields columns use12HourTime row.values }] }

/-- `buildFieldsAndItems` (mapping.ts 363): fields stage, enum synthesis over
all rows, then the indexed row loop threading items, warnings and the skip
counter. -/
def buildFieldsAndItems (ext : JsExternal) (options : BuildOptions) : MappingResult :=
  let fw := fieldsStage options.referenceMap options.columns
  let fields := finalizeFields options.columns options.rows fw.1
  let acc := options.rows.enum.foldl
    (stepRow ext fields options.columns options.slugFieldId options.use12HourTime)
    { items := [], warnings := fw.2, skipped := 0 }
  { fields := fields, items := acc.items, warnings := acc.warnings,
    skippedCount := acc.skipped }

/-! ## Lemmas about the last-write-wins lookup -/

theorem lastLookup_acc {α : Type} (key : α → String) (k : String) :
    ∀ (l : List α) (acc : Option α),
      l.foldl (fun acc x => if key x = k then some x else acc) acc = acc ∨
      ∃ x ∈ l, key x = k ∧
        l.foldl (fun acc x => if key x = k then some x else acc) acc = some x := by
  intro l
  induction l with
  | nil => intro acc; left; rfl
  | cons y ys ih =>
    intro acc
    simp only [List.foldl_cons]
    by_cases hk : key y = k
    · rcases ih (if key y = k then some y else acc) with h | h
      · right
        refine ⟨y, by simp, hk, ?_⟩
        rw [h, if_pos hk]
      · rcases h with ⟨x, hx, hkx, hfx⟩
        right
        exact ⟨x, by simp [hx], hkx, hfx⟩
    · rcases ih (if key y = k then some y else acc) with h | h
      · left
        rw [h, if_neg hk]
      · rcases h with ⟨x, hx, hkx, hfx⟩
        right
        exact ⟨x, by simp [hx], hkx, hfx⟩

theorem lastLookup_mem {α : Type} {key : α → String} {l : List α} {k : String} {x : α}
    (h : lastLookup key l k = some x) : x ∈ l ∧ key x = k := by
  rcases lastLookup_acc key k l none with h0 | h0
  · rw [lastLookup] at h
    rw [h0] at h
    cases h
  · rcases h0 with ⟨y, hy, hky, hfy⟩
    rw [lastLookup] at h
    rw [hfy] at h
    cases h
    exact ⟨hy, hky⟩

theorem lastLookup_eq_none {α : Type} {key : α → String} {l : List α} {k : String}
    (h : ∀ x ∈ l, key x ≠ k) : lastLookup key l k = none := by
  rw [lastLookup]
  induction l with
  | nil => rfl
  | cons y ys ih =>
    simp only [List.foldl_cons]
    rw [if_neg (h y (by simp))]
    exact ih fun x hx => h x (by simp [hx])

/-! ## C10: shape of the field merge -/

/-- C10. `mergeFieldsWithExistingFields` emits exactly one field per source
field, positionally, with unchanged ids; every output id comes from the
source list, so remote-only fields are never added. -/
theorem mergeFields_one_per_source (sourceFields existingFields : List Field) :
    (mergeFieldsWithExistingFields sourceFields existingFields).length =
      sourceFields.length ∧
    (∀ i : Nat,
      ((mergeFieldsWithExistingFields sourceFields existingFields).get? i).map Field.id =
        (sourceFields.get? i).map Field.id) ∧
    (∀ f ∈ mergeFieldsWithExistingFields sourceFields existingFields,
      f.id ∈ sourceFields.map Field.id) := by
  refine ⟨?_, ?_, ?_⟩
  · simp [mergeFieldsWithExistingFields]
  · intro i
    rw [mergeFieldsWithExistingFields, List.get?_map]
    cases hs : sourceFields.get? i with
    | none => rfl
    | some f =>
      cases hl : lastLookup Field.id existingFields f.id with
      | none => simp [hl]
      | some e => simp [hl]
  · intro f hf
    rw [mergeFieldsWithExistingFields] at hf
    rcases List.mem_map.mp hf with ⟨s, hs, hfs⟩
    subst hfs
    rcases hl : lastLookup Field.id existingFields s.id with _ | e
    · simp only [hl]
      exact List.mem_map_of_mem Field.id hs
    · simp only [hl]
      exact List.mem_map_of_mem Field.id hs

/-- Witness for C10 at a concrete input. -/
theorem mergeFields_one_per_source_witness :
    (mergeFieldsWithExistingFields
        [{ id := "a", name := "A", type := .string },
         { id := "b", name := "B", type := .number }]
        [{ id := "b", name := "Remote B", type := .string },
         { id := "zzz", name := "Remote only", type := .boolean }]).length = 2 ∧
    ((mergeFieldsWithExistingFields
        [{ id := "a", name := "A", type := .string },
         { id := "b", name := "B", type := .number }]
        [{ id := "b", name := "Remote B", type := .string },
         { id := "zzz", name := "Remote only", type := .boolean }]).get? 1).map Field.id =
      some "b" ∧
    ∀ f ∈ mergeFieldsWithExistingFields
        [{ id := "a", name := "A", type := .string },
         { id := "b", name := "B", type := .number }]
        [{ id := "b", name := "Remote B", type := .string },
         { id := "zzz", name := "Remote only", type := .boolean }],
      f.id ∈ ["a", "b"] := by
  have h := mergeFields_one_per_source
    [{ id := "a", name := "A", type := .string },
     { id := "b", name := "B", type := .number }]
    [{ id := "b", name := "Remote B", type := .string },
     { id := "zzz", name := "Remote only", type := .boolean }]
  refine ⟨h.1, ?_, ?_⟩
  · rw [h.2.1 1]
    decide
  · intro f hf
    have := h.2.2 f hf
    simpa using this

/-! ## C8: the merge only borrows the remote name -/

/-- C8. For each source position, the merged field keeps the local `type`,
`cases`, `collectionId` (and `id`); when some remote field shares the id the
merged `name` is that remote field's name (the last such remote field, per
`Map` construction), and when no remote field shares the id the local field
passes through unchanged. -/
theorem mergeFields_keeps_local_shape (sourceFields existingFields : List Field)
    (i : Nat) (f : Field) (hs : sourceFields.get? i = some f) :
    ∃ out : Field,
      (mergeFieldsWithExistingFields sourceFields existingFields).get? i = some out ∧
      out.id = f.id ∧ out.type = f.type ∧ out.cases = f.cases ∧
      out.collectionId = f.collectionId ∧
      ((∀ e ∈ existingFields, e.id ≠ f.id) → out = f) ∧
      (∀ e, lastLookup Field.id existingFields f.id = some e →
        out.name = e.name ∧ e ∈ existingFields ∧ e.id = f.id) := by
  rw [mergeFieldsWithExistingFields]
  cases hl : lastLookup Field.id existingFields f.id with
  | none =>
    refine ⟨f, ?_, rfl, rfl, rfl, rfl, fun _ => rfl, ?_⟩
    · rw [List.get?_map, hs]
      simp [hl]
    · intro e he
      simp at he
  | some e =>
    refine ⟨{ f with name := e.name }, ?_, rfl, rfl, rfl, rfl, ?_, ?_⟩
    · rw [List.get?_map, hs]
      simp [hl]
    · intro hnone
      rw [lastLookup_eq_none hnone] at hl
      cases hl
    · intro e' he'
      injection he' with hee
      subst hee
      have hm := lastLookup_mem hl
      exact ⟨rfl, hm.1, hm.2⟩

/-- Witness for C8: a concrete merge where the remote name wins and the
local type/cases/collectionId survive. -/
theorem mergeFields_keeps_local_shape_witness :
    ∃ out : Field,
      (mergeFieldsWithExistingFields
          [{ id := "c9", name := "Local", type := .multiCollectionReference,
             collectionId := some "fc1" }]
          [{ id := "c9", name := "Remote", type := .string }]).get? 0 = some out ∧
      out.id = "c9" ∧ out.type = .multiCollectionReference ∧ out.cases = [] ∧
      out.collectionId = some "fc1" ∧
      ((∀ e ∈ [({ id := "c9", name := "Remote", type := .string } : Field)],
          e.id ≠ "c9") →
        out = { id := "c9", name := "Local", type := .multiCollectionReference,
                collectionId := some "fc1" }) ∧
      (∀ e, lastLookup Field.id
          [{ id := "c9", name := "Remote", type := .string }] "c9" = some e →
        out.name = e.name ∧
        e ∈ [({ id := "c9", name := "Remote", type := .string } : Field)] ∧
        e.id = "c9") := by
  exact mergeFields_keeps_local_shape
    [{ id := "c9", name := "Local", type := .multiCollectionReference,
       collectionId := some "fc1" }]
    [{ id := "c9", name := "Remote", type := .string }]
    0
    { id := "c9", name := "Local", type := .multiCollectionReference,
      collectionId := some "fc1" }
    (by decide)

/-! ## C1: where unresolved multiCollectionReference fields are dropped -/

/-- Counterexample to C1 as stated: `mergeFieldsWithExistingFields` itself
performs no filtering — a `multiCollectionReference` field without a
`collectionId` passes through the merge and appears in the merged list. -/
theorem mergeFields_keeps_unresolved_multiRef_counterexample :
    ∃ f ∈ mergeFieldsWithExistingFields
        [{ id := "c9", name := "Refs", type := .multiCollectionReference,
           collectionId := none }] [],
      f.type = FieldType.multiCollectionReference ∧ f.collectionId = none := by
  refine ⟨{ id := "c9", name := "Refs", type := .multiCollectionReference,
            collectionId := none }, ?_, rfl, rfl⟩
  decide

/-- C1 as amended: the drop of unresolved `multiCollectionReference` fields
happens after the merge, in the `compatibleFields` computation of
`setCollectionFields` (pack.ts), which removes exactly those fields from the
merged list before the schema is written. -/
theorem compatibleFields_drops_unresolved_multiRef
    (sourceFields existingFields : List Field) :
    (∀ f ∈ compatibleFields (mergeFieldsWithExistingFields sourceFields existingFields),
      ¬ (f.type = FieldType.multiCollectionReference ∧ f.collectionId = none)) ∧
    (∀ f ∈ mergeFieldsWithExistingFields sourceFields existingFields,
      ¬ (f.type = FieldType.multiCollectionReference ∧ f.collectionId = none) →
        f ∈ compatibleFields (mergeFieldsWithExistingFields sourceFields existingFields)) := by
  constructor
  · intro f hf hbad
    rw [compatibleFields] at hf
    rcases List.mem_filterMap.mp hf with ⟨o, ho, hid⟩
    rcases List.mem_map.mp ho with ⟨g, _, hgo⟩
    by_cases hc : g.type = FieldType.multiCollectionReference ∧ g.collectionId = none
    · rw [if_pos hc] at hgo
      rw [← hgo] at hid
      cases hid
    · rw [if_neg hc] at hgo
      rw [← hgo] at hid
      cases hid
      exact hc hbad
  · intro f hf hok
    rw [compatibleFields]
    refine List.mem_filterMap.mpr ⟨some f, ?_, rfl⟩
    refine List.mem_map.mpr ⟨f, hf, ?_⟩
    rw [if_neg hok]

/-- Witness for the amended C1 at a concrete merged list containing an
unresolved multi-reference field: the filter removes it and keeps the rest. -/
theorem compatibleFields_drops_unresolved_multiRef_witness :
    (∀ f ∈ compatibleFields (mergeFieldsWithExistingFields
        [{ id := "c9", name := "Refs", type := .multiCollectionReference,
           collectionId := none },
         { id := "c1", name := "Title", type := .string }] []),
      ¬ (f.type = FieldType.multiCollectionReference ∧ f.collectionId = none)) ∧
    ({ id := "c1", name := "Title", type := .string } : Field) ∈
      compatibleFields (mergeFieldsWithExistingFields
        [{ id := "c9", name := "Refs", type := .multiCollectionReference,
           collectionId := none },
         { id := "c1", name := "Title", type := .string }] []) := by
  have h := compatibleFields_drops_unresolved_multiRef
    [{ id := "c9", name := "Refs", type := .multiCollectionReference,
       collectionId := none },
     { id := "c1", name := "Title", type := .string }] []
  refine ⟨h.1, ?_⟩
  refine h.2 { id := "c1", name := "Title", type := .string } (by decide) (by decide)

/-! ## C7: the image/graphic name heuristic -/

/-- C7. A non-`button` column whose lowercased name or id contains `image`
or `graphic` is mapped to an `image` field regardless of its declared type. -/
theorem mapCodaType_image_heuristic (column : CodaColumn)
    (hb : jsLower column.format.type ≠ "button")
    (hh : strContains (jsLower column.name) "image" = true ∨
          strContains (jsLower column.name) "graphic" = true ∨
          strContains (jsLower column.id) "image" = true ∨
          strContains (jsLower column.id) "graphic" = true) :
    mapCodaTypeToFramerType column =
      some { id := column.id, name := column.name, type := .image } := by
  rcases hh with h | h | h | h <;> simp [mapCodaTypeToFramerType, h, hb]

/-- Witness for C7: a column named "Image" with declared type `text` maps to
an image field. -/
theorem mapCodaType_image_heuristic_witness :
    mapCodaTypeToFramerType { id := "c-55", name := "Image", format := { type := "text" } } =
      some { id := "c-55", name := "Image", type := .image } :=
  mapCodaType_image_heuristic
    { id := "c-55", name := "Image", format := { type := "text" } }
    (by decide) (Or.inl (by decide))

/-! ## Declarative characterization of the pipeline stages -/

/-- The slug candidate of a row. -/
def rowSlugOf (ext : JsExternal) (slugFieldId : String) (row : NormalizedRow) :
    Option String :=
  extractSlugValue ext (List.lookup slugFieldId row.values)

/-- Whether the row loop skips this row (falsy id, else falsy slug value). -/
def rowSkippedB (ext : JsExternal) (slugFieldId : String) (row : NormalizedRow) : Bool :=
  match row.id with
  | none => true
  | some rowId =>
    if rowId = "" then true
    else
      match rowSlugOf ext slugFieldId row with
      | none => true
      | some s => s = ""

/-- The item the row loop emits for a row, if any. -/
def keptRowItem (ext : JsExternal) (fields : List Field) (columns : List CodaColumn)
    (slugFieldId : String) (use12HourTime : Bool) (row : NormalizedRow) : Option Item :=
  match row.id with
  | none => none
  | some rowId =>
    if rowId = "" then none
    else
      match rowSlugOf ext slugFieldId row with
      | none => none
      | some slugValue =>
        if slugValue = "" then none
        else some { id := rowId, slug := slugValue, draft := false,
                    fieldData := rowFieldData ext fields columns use12HourTime row.values }

/-- The warnings the row loop records for an indexed row. -/
def rowWarnings (ext : JsExternal) (slugFieldId : String) (ir : Nat × NormalizedRow) :
    List String :=
  match ir.2.id with
  | none => [rowIdWarning ir.1]
  | some rowId =>
    if rowId = "" then [rowIdWarning ir.1]
    else
      match rowSlugOf ext slugFieldId ir.2 with
      | none => [slugWarning rowId]
      | some s => if s = "" then [slugWarning rowId] else []

theorem stepRow_eq (ext : JsExternal) (fields : List Field) (columns : List CodaColumn)
    (slugFieldId : String) (use12HourTime : Bool) (acc : RowAcc)
    (ir : Nat × NormalizedRow) :
    stepRow ext fields columns slugFieldId use12HourTime acc ir =
      { items := acc.items ++
          (keptRowItem ext fields columns slugFieldId use12HourTime ir.2).toList,
        warnings := acc.warnings ++ rowWarnings ext slugFieldId ir,
        skipped := acc.skipped +
          (if rowSkippedB ext slugFieldId ir.2 then 1 else 0) } := by
  rcases ir with ⟨index, row⟩
  cases hid : row.id with
  | none =>
    simp [stepRow, keptRowItem, rowWarnings, rowSkippedB, hid]
  | some rowId =>
    by_cases hrid : rowId = ""
    · simp [stepRow, keptRowItem, rowWarnings, rowSkippedB, hid, hrid]
    · cases hsv : rowSlugOf ext slugFieldId row with
      | none =>
        have hsv' : extractSlugValue ext (List.lookup slugFieldId row.values) = none := hsv
        simp [stepRow, keptRowItem, rowWarnings, rowSkippedB, rowSlugOf, hid, hrid, hsv']
      | some sv =>
        have hsv' : extractSlugValue ext (List.lookup slugFieldId row.values) = some sv := hsv
        by_cases hsv2 : sv = "" <;>
          simp [stepRow, keptRowItem, rowWarnings, rowSkippedB, rowSlugOf, hid, hrid,
            hsv', hsv2]

theorem foldRows_spec (ext : JsExternal) (fields : List Field) (columns : List CodaColumn)
    (slugFieldId : String) (use12HourTime : Bool) :
    ∀ (l : List (Nat × NormalizedRow)) (acc : RowAcc),
      l.foldl (stepRow ext fields columns slugFieldId use12HourTime) acc =
        { items := acc.items ++ l.filterMap
            (fun ir => keptRowItem ext fields columns slugFieldId use12HourTime ir.2),
          warnings := acc.warnings ++ l.flatMap (rowWarnings ext slugFieldId),
          skipped := acc.skipped +
            l.countP (fun ir => rowSkippedB ext slugFieldId ir.2) } := by
  intro l
  induction l with
  | nil => intro acc; simp
  | cons hd tl ih =>
    intro acc
    rw [List.foldl_cons, stepRow_eq, ih]
    cases hk : keptRowItem ext fields columns slugFieldId use12HourTime hd.2 <;>
      by_cases hs : rowSkippedB ext slugFieldId hd.2 <;>
        simp [hk, hs, List.countP_cons, List.append_assoc] <;> omega

theorem fieldsStage_spec (referenceMap : List (String × String)) :
    ∀ columns : List CodaColumn,
      fieldsStage referenceMap columns =
        (columns.filterMap (fun c => (mapColumnWithRef referenceMap c).1),
         columns.filterMap (fun c => (mapColumnWithRef referenceMap c).2)) := by
  have haux : ∀ (columns : List CodaColumn) (acc : List Field × List String),
      columns.foldl
        (fun acc column =>
          let r := mapColumnWithRef referenceMap column
          (acc.1 ++ r.1.toList, acc.2 ++ r.2.toList)) acc =
        (acc.1 ++ columns.filterMap (fun c => (mapColumnWithRef referenceMap c).1),
         acc.2 ++ columns.filterMap (fun c => (mapColumnWithRef referenceMap c).2)) := by
    intro columns
    induction columns with
    | nil => intro acc; simp
    | cons hd tl ih =>
      intro acc
      rw [List.foldl_cons, ih]
      cases h1 : (mapColumnWithRef referenceMap hd).1 <;>
        cases h2 : (mapColumnWithRef referenceMap hd).2 <;>
          simp [h1, h2, List.append_assoc]
  intro columns
  rw [fieldsStage, haux]
  simp

theorem filterMap_enumFrom_snd {A B : Type} (f : A → Option B) :
    ∀ (l : List A) (n : Nat),
      (List.enumFrom n l).filterMap (fun ir => f ir.2) = l.filterMap f := by
  intro l
  induction l with
  | nil => intro n; rfl
  | cons x xs ih =>
    intro n
    simp only [List.enumFrom, List.filterMap_cons]
    rw [ih]

theorem countP_enumFrom_snd {A : Type} (p : A → Bool) :
    ∀ (l : List A) (n : Nat),
      (List.enumFrom n l).countP (fun ir => p ir.2) = l.countP p := by
  intro l
  induction l with
  | nil => intro n; rfl
  | cons x xs ih =>
    intro n
    simp only [List.enumFrom, List.countP_cons]
    rw [ih]

/-- The full pipeline, declaratively. -/
theorem buildFieldsAndItems_spec (ext : JsExternal) (options : BuildOptions) :
    buildFieldsAndItems ext options =
      { fields := finalizeFields options.columns options.rows
          (options.columns.filterMap (fun c => (mapColumnWithRef options.referenceMap c).1)),
        items := options.rows.filterMap
          (keptRowItem ext
            (finalizeFields options.columns options.rows
              (options.columns.filterMap
                (fun c => (mapColumnWithRef options.referenceMap c).1)))
            options.columns options.slugFieldId options.use12HourTime),
        warnings :=
          options.columns.filterMap (fun c => (mapColumnWithRef options.referenceMap c).2) ++
            options.rows.enum.flatMap (rowWarnings ext options.slugFieldId),
        skippedCount :=
          options.rows.countP (rowSkippedB ext options.slugFieldId) } := by
  rw [buildFieldsAndItems]
  rw [fieldsStage_spec]
  rw [foldRows_spec]
  have hitems :
      options.rows.enum.filterMap
        (fun ir => keptRowItem ext
          (finalizeFields options.columns options.rows
            (options.columns.filterMap
              (fun c => (mapColumnWithRef options.referenceMap c).1)))
          options.columns options.slugFieldId options.use12HourTime ir.2) =
      options.rows.filterMap
        (keptRowItem ext
          (finalizeFields options.columns options.rows
            (options.columns.filterMap
              (fun c => (mapColumnWithRef options.referenceMap c).1)))
          options.columns options.slugFieldId options.use12HourTime) := by
    rw [List.enum]
    exact filterMap_enumFrom_snd _ options.rows 0
  have hcount :
      options.rows.enum.countP
        (fun ir => rowSkippedB ext options.slugFieldId ir.2) =
      options.rows.countP (rowSkippedB ext options.slugFieldId) := by
    rw [List.enum]
    exact countP_enumFrom_snd _ options.rows 0
  simp only [hitems, hcount]
  simp

theorem isLookupEnumField_eq_false_of_not_enum (columns : List CodaColumn) {f : Field}
    (h : f.type ≠ .enum) : isLookupEnumField columns f = false := by
  rw [isLookupEnumField]
  rw [List.any_eq_false]
  intro c _
  simp [h]

theorem mem_finalizeFields_of_not_enum {columns : List CodaColumn}
    {rows : List NormalizedRow} {fields : List Field} {f : Field}
    (hf : f ∈ fields) (h : f.type ≠ .enum) : f ∈ finalizeFields columns rows fields := by
  rw [finalizeFields]
  refine List.mem_map.mpr ⟨f, hf, ?_⟩
  rw [isLookupEnumField_eq_false_of_not_enum columns h]
  simp

/-! ## C6: the lookup-array reference override -/

/-- C6. A `lookup` column with `isArray = true` that the type mapper sends to
`string`, carrying a nonempty `format.table.id`: if the reference map
resolves the table id (to a truthy collection id), the column's field
becomes a `multiCollectionReference` with that `collectionId`; if the map
does not resolve it, the field keeps its `string` mapping and exactly the
warning `No Framer collection mapping found for lookup field "<name>" (Coda
table <tableId>).` is recorded. Both outcomes surface in
`buildFieldsAndItems`'s outputs whenever the column is among its columns. -/
theorem lookup_array_reference_override (referenceMap : List (String × String))
    (column : CodaColumn) (f : Field) (tid : String)
    (hlk : jsLower column.format.type = "lookup")
    (harr : column.format.isArray = some true)
    (hmap : mapCodaTypeToFramerType column = some f)
    (hstr : f.type = .string)
    (htid : column.format.table = some { id := some tid })
    (hne : tid ≠ "") :
    (∀ cid, List.lookup tid referenceMap = some cid → cid ≠ "" →
      mapColumnWithRef referenceMap column =
        (some { id := column.id, name := column.name,
                type := .multiCollectionReference, collectionId := some cid }, none)) ∧
    (List.lookup tid referenceMap = none →
      mapColumnWithRef referenceMap column =
        (some f,
         some ("No Framer collection mapping found for lookup field \"" ++
           column.name ++ "\" (Coda table " ++ tid ++ ")."))) ∧
    (∀ ext options, options.referenceMap = referenceMap → column ∈ options.columns →
      (∀ cid, List.lookup tid referenceMap = some cid → cid ≠ "" →
        ({ id := column.id, name := column.name,
           type := .multiCollectionReference,
           collectionId := some cid } : Field) ∈ (buildFieldsAndItems ext options).fields) ∧
      (List.lookup tid referenceMap = none →
        ("No Framer collection mapping found for lookup field \"" ++
          column.name ++ "\" (Coda table " ++ tid ++ ").") ∈
          (buildFieldsAndItems ext options).warnings)) := by
  have hcond : f.type = FieldType.string ∧ jsLower column.format.type = "lookup" ∧
      column.format.isArray = some true := ⟨hstr, hlk, harr⟩
  have hresolved : ∀ cid, List.lookup tid referenceMap = some cid → cid ≠ "" →
      mapColumnWithRef referenceMap column =
        (some { id := column.id, name := column.name,
                type := .multiCollectionReference, collectionId := some cid }, none) := by
    intro cid hcid hcne
    simp only [mapColumnWithRef, hmap]
    rw [if_pos hcond]
    simp only [htid]
    rw [if_neg hne, hcid]
    simp [hcne]
  have hunresolved : List.lookup tid referenceMap = none →
      mapColumnWithRef referenceMap column =
        (some f,
         some ("No Framer collection mapping found for lookup field \"" ++
           column.name ++ "\" (Coda table " ++ tid ++ ").")) := by
    intro hcid
    simp only [mapColumnWithRef, hmap]
    rw [if_pos hcond]
    simp only [htid]
    rw [if_neg hne, hcid]
  refine ⟨hresolved, hunresolved, ?_⟩
  intro ext options hrm hcol
  rw [buildFieldsAndItems_spec]
  constructor
  · intro cid hcid hcne
    simp only
    apply mem_finalizeFields_of_not_enum
    · refine List.mem_filterMap.mpr ⟨column, hcol, ?_⟩
      rw [hrm, hresolved cid hcid hcne]
    · intro hty
      cases hty
  · intro hcid
    simp only
    apply List.mem_append_left
    refine List.mem_filterMap.mpr ⟨column, hcol, ?_⟩
    rw [hrm, hunresolved hcid]

/-- Witness for C6: one resolved and one unresolved lookup-array column. -/
theorem lookup_array_reference_override_witness :
    (mapColumnWithRef [("t1", "fc1")]
        { id := "c9", name := "Refs",
          format := { type := "lookup", isArray := some true,
                      table := some { id := some "t1" } } } =
      (some { id := "c9", name := "Refs", type := .multiCollectionReference,
              collectionId := some "fc1" }, none)) ∧
    (mapColumnWithRef []
        { id := "c9", name := "Refs",
          format := { type := "lookup", isArray := some true,
                      table := some { id := some "t1" } } } =
      (some { id := "c9", name := "Refs", type := .string },
       some "No Framer collection mapping found for lookup field \"Refs\" (Coda table t1).")) := by
  constructor
  · exact (lookup_array_reference_override [("t1", "fc1")]
      { id := "c9", name := "Refs",
        format := { type := "lookup", isArray := some true,
                    table := some { id := some "t1" } } }
      { id := "c9", name := "Refs", type := .string } "t1"
      (by decide) rfl (by decide) rfl rfl (by decide)).1 "fc1" rfl (by decide)
  · exact (lookup_array_reference_override []
      { id := "c9", name := "Refs",
        format := { type := "lookup", isArray := some true,
                    table := some { id := some "t1" } } }
      { id := "c9", name := "Refs", type := .string } "t1"
      (by decide) rfl (by decide) rfl rfl (by decide)).2.1 rfl

/-! ## C5: the number coercion policy -/

/-- A concrete instantiation of the external JS facilities, used only to
evaluate witnesses and counterexamples on paths that never consult them. -/
def sampleExt : JsExternal :=
  { parseDate := fun _ => none, markdownToHtml := fun s => s,
    jsonStringify := fun _ => "null", numToStr := fun _ => "" }

/-- C5. On a `number` field: numbers pass through unchanged; for any
non-blank raw value the coercion always yields a number entry (it never
omits and has no warning channel); `"$1,200.50"` parses to `1200.5` after
currency/comma stripping, `"25%"` to `0.25` via the percent division, and
the unparsable `"abc"` coerces to `0`. -/
theorem number_coercion_policy (ext : JsExternal) (field : Field)
    (codaColumnType : String) (use12HourTime : Bool) (hf : field.type = .number) :
    (∀ q : ℚ, transformCodaValue ext (.num q) field codaColumnType use12HourTime =
      some ⟨.number, .numV q⟩) ∧
    (∀ v : JsonValue, isBlankRaw v = false →
      ∃ q : ℚ, transformCodaValue ext v field codaColumnType use12HourTime =
        some ⟨.number, .numV q⟩) ∧
    transformCodaValue ext (.str "$1,200.50") field codaColumnType use12HourTime =
      some ⟨.number, .numV (2401 / 2)⟩ ∧
    transformCodaValue ext (.str "25%") field codaColumnType use12HourTime =
      some ⟨.number, .numV (1 / 4)⟩ ∧
    transformCodaValue ext (.str "abc") field codaColumnType use12HourTime =
      some ⟨.number, .numV 0⟩ := by
  have hnum : ∀ v : JsonValue, isBlankRaw v = false →
      transformCodaValue ext v field codaColumnType use12HourTime =
        some ⟨.number, .numV (coerceNumber v)⟩ := by
    intro v hv
    rw [transformCodaValue, hv]
    simp [hf]
  refine ⟨?_, ?_, ?_, ?_, ?_⟩
  · intro q
    rw [hnum (.num q) (by rfl)]
    rfl
  · intro v hv
    exact ⟨coerceNumber v, hnum v hv⟩
  · rw [hnum _ (by decide)]
    have h1 : coerceNumber (.str "$1,200.50") =
        (digitsVal ['1', '2', '0', '0'] : ℚ) +
          (digitsVal ['5', '0'] : ℚ) / (10 : ℚ) ^ (2 : Nat) := by rfl
    rw [h1]
    have hd1 : digitsVal ['1', '2', '0', '0'] = 1200 := by decide
    have hd2 : digitsVal ['5', '0'] = 50 := by decide
    rw [hd1, hd2]
    have hval : ((1200 : Nat) : ℚ) + ((50 : Nat) : ℚ) / (10 : ℚ) ^ (2 : Nat) = 2401 / 2 := by
      norm_num
    rw [hval]
  · rw [hnum _ (by decide)]
    have h2 : coerceNumber (.str "25%") = (digitsVal ['2', '5'] : ℚ) / 100 := by rfl
    rw [h2]
    have hd : digitsVal ['2', '5'] = 25 := by decide
    rw [hd]
    have hval : ((25 : Nat) : ℚ) / 100 = 1 / 4 := by norm_num
    rw [hval]
  · rw [hnum _ (by decide)]
    have h3 : coerceNumber (.str "abc") = 0 := by rfl
    rw [h3]

/-- Witness for C5 at a concrete field and external record. -/
theorem number_coercion_policy_witness :
    transformCodaValue sampleExt (.num 7) { id := "n", name := "N", type := .number }
        "number" false = some ⟨.number, .numV 7⟩ ∧
    (∃ q : ℚ, transformCodaValue sampleExt (.bool true)
        { id := "n", name := "N", type := .number } "number" false =
      some ⟨.number, .numV q⟩) ∧
    transformCodaValue sampleExt (.str "$1,200.50")
        { id := "n", name := "N", type := .number } "number" false =
      some ⟨.number, .numV (2401 / 2)⟩ ∧
    transformCodaValue sampleExt (.str "25%")
        { id := "n", name := "N", type := .number } "number" false =
      some ⟨.number, .numV (1 / 4)⟩ ∧
    transformCodaValue sampleExt (.str "abc")
        { id := "n", name := "N", type := .number } "number" false =
      some ⟨.number, .numV 0⟩ := by
  have h := number_coercion_policy sampleExt { id := "n", name := "N", type := .number }
    "number" false rfl
  exact ⟨h.1 7, h.2.1 (.bool true) (by decide), h.2.2.1, h.2.2.2.1, h.2.2.2.2⟩

theorem keptRowItem_eq_some {ext : JsExternal} {F : List Field}
    {cols : List CodaColumn} {sid : String} {u : Bool} {row : NormalizedRow}
    {item : Item} (h : keptRowItem ext F cols sid u row = some item) :
    ∃ rowId slugValue, row.id = some rowId ∧ rowId ≠ "" ∧
      rowSlugOf ext sid row = some slugValue ∧ slugValue ≠ "" ∧
      item = { id := rowId, slug := slugValue, draft := false,
               fieldData := rowFieldData ext F cols u row.values } := by
  rw [keptRowItem] at h
  split at h
  · cases h
  · rename_i rowId hid
    split at h
    · cases h
    · rename_i hrid
      split at h
      · cases h
      · rename_i slugValue hsv
        split at h
        · cases h
        · rename_i hsv2
          exact ⟨rowId, slugValue, hid, hrid, hsv, hsv2, (Option.some.inj h).symm⟩

/-! ## C2: canonical empties and the keys of a kept item's field data -/

/-- Counterexample to C2 as stated: on a kept row, a declared `date` field
whose cell is blank is omitted from the item's field data, so not every
declared field's key appears. -/
theorem declared_key_missing_counterexample :
    ∃ item ∈ (buildFieldsAndItems sampleExt
        { columns := [{ id := "c1", name := "Title", format := { type := "text" } },
                      { id := "c2", name := "When", format := { type := "date" } }],
          rows := [{ id := some "r1", values := [("c1", .str "Hello"), ("c2", .str "")] }],
          slugFieldId := "c1", referenceMap := [], use12HourTime := false }).items,
      ∃ f ∈ (buildFieldsAndItems sampleExt
        { columns := [{ id := "c1", name := "Title", format := { type := "text" } },
                      { id := "c2", name := "When", format := { type := "date" } }],
          rows := [{ id := some "r1", values := [("c1", .str "Hello"), ("c2", .str "")] }],
          slugFieldId := "c1", referenceMap := [], use12HourTime := false }).fields,
        ∀ e : FieldDataEntry, (f.id, e) ∉ item.fieldData := by
  refine ⟨{ id := "r1", slug := "Hello", draft := false,
            fieldData := [("c1", ⟨.string, .strV "Hello"⟩)] }, by decide,
          { id := "c2", name := "When", type := .date }, by decide, ?_⟩
  intro e he
  rw [List.mem_singleton] at he
  have hfst : "c2" = "c1" := congrArg Prod.fst he
  exact absurd hfst (by decide)

/-- C2 as amended. Blank raw values (null/undefined/blank string) give the
canonical empty entry for every non-`date` field type and omit for `date`;
and in a kept item, a field key appears in the field data exactly when the
row's values carry that key, the key resolves in the field map, and the
transform does not omit. -/
theorem canonical_empty_and_kept_keys :
    (∀ (ext : JsExternal) (v : JsonValue) (field : Field) (ct : String) (u : Bool),
      isBlankRaw v = true →
        ((field.type = .string →
            transformCodaValue ext v field ct u = some ⟨.string, .strV ""⟩) ∧
         (field.type = .number →
            transformCodaValue ext v field ct u = some ⟨.number, .numV 0⟩) ∧
         (field.type = .boolean →
            transformCodaValue ext v field ct u = some ⟨.boolean, .boolV false⟩) ∧
         (field.type = .image →
            transformCodaValue ext v field ct u = some ⟨.image, .strV ""⟩) ∧
         (field.type = .file →
            transformCodaValue ext v field ct u = some ⟨.file, .strV ""⟩) ∧
         (field.type = .formattedText →
            transformCodaValue ext v field ct u = some ⟨.formattedText, .strV ""⟩) ∧
         (field.type = .link →
            transformCodaValue ext v field ct u = some ⟨.link, .strV ""⟩) ∧
         (field.type = .enum →
            transformCodaValue ext v field ct u = some ⟨.enum, .strV ""⟩) ∧
         (field.type = .collectionReference →
            transformCodaValue ext v field ct u = some ⟨.collectionReference, .strV ""⟩) ∧
         (field.type = .multiCollectionReference →
            transformCodaValue ext v field ct u =
              some ⟨.multiCollectionReference, .listV []⟩) ∧
         (field.type = .date → transformCodaValue ext v field ct u = none))) ∧
    (∀ (ext : JsExternal) (options : BuildOptions) (item : Item),
      item ∈ (buildFieldsAndItems ext options).items →
        ∃ row ∈ options.rows,
          ∀ (k : String) (e : FieldDataEntry),
            (k, e) ∈ item.fieldData ↔
              ∃ v, (k, v) ∈ row.values ∧
                ∃ f, lastLookup Field.id (buildFieldsAndItems ext options).fields k =
                    some f ∧
                  transformCodaValue ext v f (columnTypeFor options.columns k)
                    options.use12HourTime = some e) := by
  constructor
  · intro ext v field ct u hb
    have ht : transformCodaValue ext v field ct u = blankEntry field.type := by
      rw [transformCodaValue]
      simp [hb]
    refine ⟨?_, ?_, ?_, ?_, ?_, ?_, ?_, ?_, ?_, ?_, ?_⟩ <;>
      (intro hty
       rw [ht, hty]
       rfl)
  · intro ext options item hitem
    rw [buildFieldsAndItems_spec] at hitem
    simp only at hitem
    rcases List.mem_filterMap.mp hitem with ⟨row, hrow, hkept⟩
    refine ⟨row, hrow, ?_⟩
    have hfields : (buildFieldsAndItems ext options).fields =
        finalizeFields options.columns options.rows
          (options.columns.filterMap (fun c => (mapColumnWithRef options.referenceMap c).1)) := by
      rw [buildFieldsAndItems_spec]
    rcases keptRowItem_eq_some hkept with
      ⟨rowId, slugValue, hid, hrid, hsv, hsv2, hitem_eq⟩
    have hdata : item.fieldData =
        rowFieldData ext
          (finalizeFields options.columns options.rows
            (options.columns.filterMap
              (fun c => (mapColumnWithRef options.referenceMap c).1)))
          options.columns options.use12HourTime row.values := by
      rw [hitem_eq]
    intro k e
    rw [hdata, hfields]
    constructor
    · intro hmem
      rcases List.mem_filterMap.mp hmem with ⟨kv, hkv, hg⟩
      rcases kv with ⟨k', v⟩
      rcases hlk : lastLookup Field.id
          (finalizeFields options.columns options.rows
            (options.columns.filterMap
              (fun c => (mapColumnWithRef options.referenceMap c).1))) k' with _ | f
      · simp only [rowFieldData, hlk] at hg
        cases hg
      · simp only [rowFieldData, hlk] at hg
        rcases htr : transformCodaValue ext v f
            (columnTypeFor options.columns k') options.use12HourTime with _ | tr
        · simp only [htr] at hg
          cases hg
        · simp only [htr] at hg
          have hk : k' = k := congrArg Prod.fst (Option.some.inj hg)
          have he : tr = e := congrArg Prod.snd (Option.some.inj hg)
          subst hk
          subst he
          exact ⟨v, hkv, f, hlk, htr⟩
    · rintro ⟨v, hv, f, hlk, htr⟩
      refine List.mem_filterMap.mpr ⟨(k, v), hv, ?_⟩
      simp only [rowFieldData, hlk, htr]

/-- Witness for the amended C2: blank cells at concrete `number` and `date`
fields, through the theorem itself. -/
theorem canonical_empty_and_kept_keys_witness :
    transformCodaValue sampleExt .null { id := "n", name := "N", type := .number }
        "number" false = some ⟨.number, .numV 0⟩ ∧
    transformCodaValue sampleExt (.str " ") { id := "d", name := "D", type := .date }
        "date" false = none := by
  have h := canonical_empty_and_kept_keys
  refine ⟨?_, ?_⟩
  · exact (h.1 sampleExt .null { id := "n", name := "N", type := .number }
      "number" false (by decide)).2.1 rfl
  · exact (h.1 sampleExt (.str " ") { id := "d", name := "D", type := .date }
      "date" false (by decide)).2.2.2.2.2.2.2.2.2.2 rfl

/-! ## C9: tagged values match their owning field's type -/

theorem blankEntry_tag {ft : FieldType} {e : FieldDataEntry}
    (h : blankEntry ft = some e) : e.type = ft := by
  cases ft <;> simp only [blankEntry] at h <;> cases h <;> rfl

theorem coerceEnum_tag {ext : JsExternal} {cs : List EnumCase} {v : JsonValue}
    {e : FieldDataEntry} (h : coerceEnum ext cs v = some e) : e.type = .enum := by
  rw [coerceEnum] at h
  rcases Option.map_eq_some'.mp h with ⟨a, _, hfa⟩
  rw [← hfa]

theorem transformCodaValue_type_tag (ext : JsExternal) (v : JsonValue) (f : Field)
    (ct : String) (u : Bool) (e : FieldDataEntry)
    (h : transformCodaValue ext v f ct u = some e) : e.type = f.type := by
  rw [transformCodaValue] at h
  split at h
  · exact blankEntry_tag h
  · split at h <;> rename_i heq
    · injection h with h2
      subst h2
      rw [heq]
    · injection h with h2
      subst h2
      rw [heq]
    · rcases Option.map_eq_some'.mp h with ⟨a, _, hfa⟩
      rw [← hfa, heq]
    · injection h with h2
      subst h2
      rw [heq]
    · injection h with h2
      subst h2
      rw [heq]
    · rcases Option.map_eq_some'.mp h with ⟨a, _, hfa⟩
      rw [← hfa, heq]
    · rcases Option.map_eq_some'.mp h with ⟨a, _, hfa⟩
      rw [← hfa, heq]
    · injection h with h2
      subst h2
      rw [heq]
    · injection h with h2
      subst h2
      rw [heq]
    · injection h with h2
      subst h2
      rw [heq]
    · rw [heq]
      exact coerceEnum_tag h

/-- C9. In every item the pipeline emits, every field-data entry's type tag
is the type of an output field whose id is the entry's key. -/
theorem fieldData_tag_matches_field (ext : JsExternal) (options : BuildOptions) :
    ∀ item ∈ (buildFieldsAndItems ext options).items,
      ∀ (k : String) (e : FieldDataEntry), (k, e) ∈ item.fieldData →
        ∃ f ∈ (buildFieldsAndItems ext options).fields, f.id = k ∧ e.type = f.type := by
  intro item hitem k e hke
  have hfields : (buildFieldsAndItems ext options).fields =
      finalizeFields options.columns options.rows
        (options.columns.filterMap (fun c => (mapColumnWithRef options.referenceMap c).1)) := by
    rw [buildFieldsAndItems_spec]
  rw [buildFieldsAndItems_spec] at hitem
  simp only at hitem
  rcases List.mem_filterMap.mp hitem with ⟨row, _, hkept⟩
  rcases keptRowItem_eq_some hkept with ⟨rowId, slugValue, _, _, _, _, hitem_eq⟩
  rw [hitem_eq] at hke
  simp only at hke
  rcases List.mem_filterMap.mp hke with ⟨kv, _, hg⟩
  rcases kv with ⟨k', v⟩
  rcases hlk : lastLookup Field.id
      (finalizeFields options.columns options.rows
        (options.columns.filterMap
          (fun c => (mapColumnWithRef options.referenceMap c).1))) k' with _ | f
  · simp only [hlk] at hg
    cases hg
  · simp only [hlk] at hg
    rcases htr : transformCodaValue ext v f
        (columnTypeFor options.columns k') options.use12HourTime with _ | tr
    · simp only [htr] at hg
      cases hg
    · simp only [htr] at hg
      have hk : k' = k := congrArg Prod.fst (Option.some.inj hg)
      have he : tr = e := congrArg Prod.snd (Option.some.inj hg)
      subst hk
      subst he
      have hmem := lastLookup_mem hlk
      refine ⟨f, ?_, hmem.2, transformCodaValue_type_tag ext v f _ _ _ htr⟩
      rw [hfields]
      exact hmem.1

/-- Witness for C9 at a concrete run of the pipeline. -/
theorem fieldData_tag_matches_field_witness :
    ∃ f ∈ (buildFieldsAndItems sampleExt
        { columns := [{ id := "c1", name := "Title", format := { type := "text" } }],
          rows := [{ id := some "r1", values := [("c1", .str "Hello")] }],
          slugFieldId := "c1", referenceMap := [], use12HourTime := false }).fields,
      f.id = "c1" ∧ FieldDataEntry.type ⟨.string, .strV "Hello"⟩ = f.type := by
  exact fieldData_tag_matches_field sampleExt
    { columns := [{ id := "c1", name := "Title", format := { type := "text" } }],
      rows := [{ id := some "r1", values := [("c1", .str "Hello")] }],
      slugFieldId := "c1", referenceMap := [], use12HourTime := false }
    { id := "r1", slug := "Hello", draft := false,
      fieldData := [("c1", ⟨.string, .strV "Hello"⟩)] }
    (by decide) "c1" ⟨.string, .strV "Hello"⟩ (by decide)

/-! ## C3: row-level soft skips -/

theorem linkGoF_of_all_ws :
    ∀ (fuel : Nat) (l : List Char), (∀ c ∈ l, c.isWhitespace) → linkGoF fuel l = l := by
  intro fuel
  induction fuel with
  | zero => intro l _; rfl
  | succ n ih =>
    intro l hl
    cases l with
    | nil => rfl
    | cons c rest =>
      have hc : c.isWhitespace := hl c (by simp)
      have hne : ¬ (c = '[') := by
        intro hcc
        subst hcc
        exact absurd hc (by decide)
      rw [linkGoF, if_neg hne, ih rest (fun x hx => hl x (by simp [hx]))]

theorem fenceGoF_of_all_ws :
    ∀ (fuel : Nat) (l : List Char), (∀ c ∈ l, c.isWhitespace) → fenceGoF fuel l = l := by
  intro fuel
  induction fuel with
  | zero => intro l _; rfl
  | succ n ih =>
    intro l hl
    cases l with
    | nil => rfl
    | cons c rest =>
      have hc : c.isWhitespace := hl c (by simp)
      have hne : ¬ (c = '`' ∧ rest.take 2 = ['`', '`']) := by
        rintro ⟨hcc, -⟩
        subst hcc
        exact absurd hc (by decide)
      rw [fenceGoF, if_neg hne, ih rest (fun x hx => hl x (by simp [hx]))]

theorem btGoF_of_all_ws :
    ∀ (fuel : Nat) (l : List Char), (∀ c ∈ l, c.isWhitespace) → btGoF fuel l = l := by
  intro fuel
  induction fuel with
  | zero => intro l _; rfl
  | succ n ih =>
    intro l hl
    cases l with
    | nil => rfl
    | cons c rest =>
      have hc : c.isWhitespace := hl c (by simp)
      have hne : ¬ (c = '`') := by
        intro hcc
        subst hcc
        exact absurd hc (by decide)
      rw [btGoF, if_neg hne, ih rest (fun x hx => hl x (by simp [hx]))]

theorem trimList_of_all_ws {l : List Char} (hl : ∀ c ∈ l, c.isWhitespace) :
    trimList l = [] := by
  rw [trimList]
  have h1 : l.dropWhile Char.isWhitespace = [] := List.dropWhile_eq_nil_iff.mpr hl
  rw [h1]
  rfl

theorem stripMarkdown_of_all_ws {s : String} (hl : ∀ c ∈ s.data, c.isWhitespace) :
    stripMarkdown s = "" := by
  rw [stripMarkdown, linkGo, linkGoF_of_all_ws _ _ hl, fenceGo, fenceGoF_of_all_ws _ _ hl,
    btGo, btGoF_of_all_ws _ _ hl, trimList_of_all_ws hl]

/-- C3. Per run of the pipeline: the skip counter counts exactly the rows
with a falsy id or a falsy slug value; the items are exactly the per-row
kept items of the non-skipped rows (so processing covers every row and the
batch never aborts); a row with an absent or empty id records its
index-warning; a row with an id but a blank/unresolvable slug records the
warning carrying its row id as a substring; and a whitespace-only slug cell
extracts as the empty (falsy) slug. -/
theorem row_skip_semantics (ext : JsExternal) (options : BuildOptions) :
    (buildFieldsAndItems ext options).skippedCount =
      options.rows.countP (rowSkippedB ext options.slugFieldId) ∧
    (buildFieldsAndItems ext options).items =
      options.rows.filterMap
        (keptRowItem ext (buildFieldsAndItems ext options).fields options.columns
          options.slugFieldId options.use12HourTime) ∧
    (∀ (i : Nat) (h : i < options.rows.length),
      ((options.rows.get ⟨i, h⟩).id = none ∨ (options.rows.get ⟨i, h⟩).id = some "") →
        rowIdWarning i ∈ (buildFieldsAndItems ext options).warnings) ∧
    (∀ (i : Nat) (h : i < options.rows.length) (rowId : String),
      (options.rows.get ⟨i, h⟩).id = some rowId → rowId ≠ "" →
      (rowSlugOf ext options.slugFieldId (options.rows.get ⟨i, h⟩) = none ∨
       rowSlugOf ext options.slugFieldId (options.rows.get ⟨i, h⟩) = some "") →
        slugWarning rowId ∈ (buildFieldsAndItems ext options).warnings ∧
        rowId.data <:+: (slugWarning rowId).data) ∧
    (∀ s : String, (∀ c ∈ s.data, c.isWhitespace) →
      extractSlugValue ext (some (.str s)) = some "") := by
  have hwmem : ∀ (i : Nat) (h : i < options.rows.length) (w : String),
      w ∈ rowWarnings ext options.slugFieldId (i, options.rows.get ⟨i, h⟩) →
      w ∈ (buildFieldsAndItems ext options).warnings := by
    intro i h w hw
    rw [buildFieldsAndItems_spec]
    simp only
    apply List.mem_append_right
    refine List.mem_flatMap.mpr ⟨(i, options.rows.get ⟨i, h⟩), ?_, hw⟩
    have : options.rows.enum.get ⟨i, by simpa using h⟩ = (i, options.rows.get ⟨i, h⟩) := by
      simp [List.get_enum]
    rw [← this]
    exact List.get_mem _ _ _
  refine ⟨?_, ?_, ?_, ?_, ?_⟩
  · rw [buildFieldsAndItems_spec]
  · conv_lhs => rw [buildFieldsAndItems_spec]
    rw [buildFieldsAndItems_spec]
  · intro i h hid
    apply hwmem i h
    simp only [List.get_eq_getElem] at hid
    rcases hid with hid | hid <;>
      simp [rowWarnings, hid]
  · intro i h rowId hid hrid hslug
    constructor
    · apply hwmem i h
      simp only [List.get_eq_getElem] at hid hslug
      rcases hslug with hslug | hslug <;>
        simp [rowWarnings, hid, hrid, hslug]
    · refine ⟨"Row ".data, " is missing a slug value and was skipped.".data, ?_⟩
      rw [slugWarning]
      simp
  · intro s hs
    rw [extractSlugValue, stripMarkdown_of_all_ws hs]
    rfl

/-- Witness for C3: a blank-slug row and a missing-id row, through the
theorem itself. -/
theorem row_skip_semantics_witness :
    rowIdWarning 1 ∈ (buildFieldsAndItems sampleExt
      { columns := [{ id := "c1", name := "Title", format := { type := "text" } }],
        rows := [{ id := some "r2", values := [("c1", .str "  ")] },
                 { id := none, values := [("c1", .str "B")] }],
        slugFieldId := "c1", referenceMap := [], use12HourTime := false }).warnings ∧
    slugWarning "r2" ∈ (buildFieldsAndItems sampleExt
      { columns := [{ id := "c1", name := "Title", format := { type := "text" } }],
        rows := [{ id := some "r2", values := [("c1", .str "  ")] },
                 { id := none, values := [("c1", .str "B")] }],
        slugFieldId := "c1", referenceMap := [], use12HourTime := false }).warnings ∧
    "r2".data <:+: (slugWarning "r2").data ∧
    extractSlugValue sampleExt (some (.str " ")) = some "" := by
  have h := row_skip_semantics sampleExt
    { columns := [{ id := "c1", name := "Title", format := { type := "text" } }],
      rows := [{ id := some "r2", values := [("c1", .str "  ")] },
               { id := none, values := [("c1", .str "B")] }],
      slugFieldId := "c1", referenceMap := [], use12HourTime := false }
  have h4 := h.2.2.2.1 0 (by decide) "r2" (by decide) (by decide)
    (Or.inr (by decide))
  exact ⟨h.2.2.1 1 (by decide) (Or.inl (by decide)), h4.1, h4.2,
    h.2.2.2.2 " " (by decide)⟩

/-! ## C4: the synthesized enum domain -/

/-- The stream of labels the enum-domain scan extracts, in scan order: per
row, the lookup cell's extracted labels, fence-stripped and trimmed (falsy
cells contribute nothing). `collectLookupSet` is its insertion-ordered
dedup. -/
def specLookupLabels (rows : List NormalizedRow) (fieldId : String) : List String :=
  rows.flatMap fun row =>
    match List.lookup fieldId row.values with
    | none => []
    | some v => if jsFalsy v then [] else (extractLookupValues v).map stripFenceTrim

/-- Insertion-ordered deduplication (the JS `Set` accumulation). -/
def insertionDedup (l : List String) : List String :=
  l.foldl addUnique []

theorem foldl_flatMap {α β γ : Type} (f : β → α → β) (g : γ → List α) :
    ∀ (l : List γ) (a : β),
      (l.flatMap g).foldl f a = l.foldl (fun acc x => (g x).foldl f acc) a := by
  intro l
  induction l with
  | nil => intro a; rfl
  | cons x xs ih =>
    intro a
    rw [List.flatMap_cons, List.foldl_append, List.foldl_cons, ih]

theorem foldl_addUnique_decompose :
    ∀ (l acc : List String), ∃ l2 : List String,
      l.foldl addUnique acc = acc ++ l2 ∧ l2.Sublist l ∧
      (acc.Nodup → (acc ++ l2).Nodup) ∧
      (∀ x, x ∈ acc ++ l2 ↔ x ∈ acc ∨ x ∈ l) := by
  intro l
  induction l with
  | nil =>
    intro acc
    exact ⟨[], by simp, List.nil_sublist [], fun h => by simpa, by simp⟩
  | cons v tl ih =>
    intro acc
    rw [List.foldl_cons]
    by_cases hv : v ∈ acc
    · have hstep : addUnique acc v = acc := by rw [addUnique, if_pos hv]
      rw [hstep]
      obtain ⟨l2, he, hs, hn, hm⟩ := ih acc
      refine ⟨l2, he, hs.cons v, hn, ?_⟩
      intro x
      rw [hm x]
      constructor
      · rintro (hx | hx)
        · exact Or.inl hx
        · exact Or.inr (by simp [hx])
      · rintro (hx | hx)
        · exact Or.inl hx
        · rcases List.mem_cons.mp hx with hx | hx
          · subst hx
            exact Or.inl hv
          · exact Or.inr hx
    · have hstep : addUnique acc v = acc ++ [v] := by rw [addUnique, if_neg hv]
      rw [hstep]
      obtain ⟨l2, he, hs, hn, hm⟩ := ih (acc ++ [v])
      refine ⟨v :: l2, ?_, hs.cons₂ v, ?_, ?_⟩
      · rw [he, List.append_assoc]
        rfl
      · intro hacc
        have : (acc ++ [v]).Nodup := by
          rw [List.nodup_append]
          exact ⟨hacc, List.nodup_singleton v, by simpa using hv⟩
        have h2 := hn this
        rw [List.append_assoc] at h2
        exact h2
      · intro x
        have := hm x
        rw [List.append_assoc, List.singleton_append] at this
        rw [this]
        constructor
        · rintro (hx | hx)
          · rcases List.mem_append.mp hx with hx | hx
            · exact Or.inl hx
            · exact Or.inr (List.mem_cons.mpr (Or.inl (by simpa using hx)))
          · exact Or.inr (List.mem_cons.mpr (Or.inr hx))
        · rintro (hx | hx)
          · exact Or.inl (List.mem_append_left _ hx)
          · rcases List.mem_cons.mp hx with hx | hx
            · subst hx
              exact Or.inl (List.mem_append_right _ (by simp))
            · exact Or.inr hx

theorem insertionDedup_spec (l : List String) :
    insertionDedup l = l.foldl addUnique [] ∧
    (insertionDedup l).Sublist l ∧ (insertionDedup l).Nodup ∧
    (∀ x, x ∈ insertionDedup l ↔ x ∈ l) := by
  obtain ⟨l2, he, hs, hn, hm⟩ := foldl_addUnique_decompose l []
  rw [List.nil_append] at he
  refine ⟨rfl, ?_, ?_, ?_⟩
  · rw [insertionDedup, he]
    exact hs
  · rw [insertionDedup, he]
    simpa using hn List.nodup_nil
  · intro x
    rw [insertionDedup, he]
    simpa using hm x

theorem collectLookupSet_eq_dedup (rows : List NormalizedRow) (fieldId : String) :
    collectLookupSet rows fieldId = insertionDedup (specLookupLabels rows fieldId) := by
  rw [insertionDedup, specLookupLabels, foldl_flatMap, collectLookupSet]
  congr 1
  funext acc row
  cases hlu : List.lookup fieldId row.values with
  | none => rfl
  | some v =>
    by_cases hf : jsFalsy v
    · simp [hf]
    · simp [hf, List.foldl_map]

/-- C4. The synthesized enum domain is the stream of fence-stripped, trimmed
labels, deduplicated in first-occurrence order (a sublist of the label
stream), with empty labels excluded; ids are unique and each case's id
equals its name equals the literal label; every nonempty label occurs; and
every lookup-enum field of the pipeline's output carries exactly this
domain. Determinism across identical runs is definitional (the synthesis is
a pure function of the rows). -/
theorem enum_domain_synthesis (rows : List NormalizedRow) (fieldId : String) :
    (synthCases rows fieldId).map EnumCase.id =
      (insertionDedup (specLookupLabels rows fieldId)).filter (· ≠ "") ∧
    ((synthCases rows fieldId).map EnumCase.id).Nodup ∧
    ((synthCases rows fieldId).map EnumCase.id).Sublist (specLookupLabels rows fieldId) ∧
    (∀ c ∈ synthCases rows fieldId, c.id = c.name ∧ c.id ≠ "") ∧
    (∀ lab ∈ specLookupLabels rows fieldId, lab ≠ "" →
      lab ∈ (synthCases rows fieldId).map EnumCase.id) ∧
    (∀ (ext : JsExternal) (options : BuildOptions) (f : Field),
      f ∈ (buildFieldsAndItems ext options).fields →
      isLookupEnumField options.columns f = true →
      f.cases = synthCases options.rows f.id) := by
  obtain ⟨-, hsub, hnodup, hmem⟩ := insertionDedup_spec (specLookupLabels rows fieldId)
  have hids : (synthCases rows fieldId).map EnumCase.id =
      (insertionDedup (specLookupLabels rows fieldId)).filter (· ≠ "") := by
    rw [synthCases, collectLookupSet_eq_dedup, List.map_map]
    exact List.map_id _
  refine ⟨hids, ?_, ?_, ?_, ?_, ?_⟩
  · rw [hids]
    exact hnodup.filter _
  · rw [hids]
    exact (List.filter_sublist _).trans hsub
  · intro c hc
    rw [synthCases, collectLookupSet_eq_dedup] at hc
    rcases List.mem_map.mp hc with ⟨v, hv, hcv⟩
    rw [← hcv]
    exact ⟨rfl, by simpa using (List.mem_filter.mp hv).2⟩
  · intro lab hlab hne
    rw [hids]
    rw [List.mem_filter]
    exact ⟨(hmem lab).mpr hlab, by simpa using hne⟩
  · intro ext options f hf hlookup
    rw [buildFieldsAndItems_spec] at hf
    simp only at hf
    rw [finalizeFields] at hf
    rcases List.mem_map.mp hf with ⟨f0, _, hf0⟩
    by_cases hl0 : isLookupEnumField options.columns f0
    · rw [if_pos hl0] at hf0
      rw [← hf0]
    · rw [if_neg hl0] at hf0
      subst hf0
      exact absurd hlookup hl0

/-- Witness for C4: the two-row Red/Blue lookup scenario. -/
theorem enum_domain_synthesis_witness :
    (synthCases
        [{ id := some "r1", values := [("c2", .str "Red")] },
         { id := some "r2", values := [("c2", .str "Blue")] },
         { id := some "r3", values := [("c2", .str "Red")] }] "c2").map EnumCase.id =
      (insertionDedup (specLookupLabels
        [{ id := some "r1", values := [("c2", .str "Red")] },
         { id := some "r2", values := [("c2", .str "Blue")] },
         { id := some "r3", values := [("c2", .str "Red")] }] "c2")).filter (· ≠ "") ∧
    ((synthCases
        [{ id := some "r1", values := [("c2", .str "Red")] },
         { id := some "r2", values := [("c2", .str "Blue")] },
         { id := some "r3", values := [("c2", .str "Red")] }] "c2").map EnumCase.id).Nodup ∧
    synthCases
        [{ id := some "r1", values := [("c2", .str "Red")] },
         { id := some "r2", values := [("c2", .str "Blue")] },
         { id := some "r3", values := [("c2", .str "Red")] }] "c2" =
      [{ id := "Red", name := "Red" }, { id := "Blue", name := "Blue" }] := by
  have h := enum_domain_synthesis
    [{ id := some "r1", values := [("c2", .str "Red")] },
     { id := some "r2", values := [("c2", .str "Blue")] },
     { id := some "r3", values := [("c2", .str "Red")] }] "c2"
  exact ⟨h.1, h.2.1, by decide⟩

end CodaMap
